import Mathlib

/-!
# Zrun core: shell invocation builder, execution engine and asynchronous lifecycle manager

A shallow embedding of `src/zrun_core.cpp` (class `Zrun::CoreImpl`), of the
types of `src/zrun_types.h`, of the facade `src/zrun_cpp.cpp` and of the C entry
point `zrun_execute_sync` of `src/zrun_c.cpp`.

* `std::string` is a list of characters (`Str`); a range-for over a string
  with `fullCommand += ...` in its body is a left fold that appends to the
  accumulator.
* `int` is a 32-bit two's-complement integer, kept as an `Int` and wrapped by
  `wrapInt32` where the program does arithmetic on it.
* The engine call `executeSync` made by a worker is an effect of the outside
  world: the `CommandResult` it returns is a parameter of the worker's model.
* The Unix engine `executeSyncUnix` is modelled as the parent process runs it,
  over the outcomes of its system calls (`UnixEnv`): the poll loop consumes one
  observation per iteration.
* The locking behaviour of the registry methods, the worker and the destructor
  is a step function on threads (`stepThread`), one step per lock operation.
-/

namespace Zrun

/-- The model of `std::string`: the sequence of its characters. -/
abbrev Str := List Char

/-- The double quote character. -/
def dquote : Char := Char.ofNat 34

/-- The backslash character. -/
def backslash : Char := Char.ofNat 92

/-- The dollar sign. -/
def dollar : Char := Char.ofNat 36

/-- The backtick (grave accent) character. -/
def backtick : Char := Char.ofNat 96

/-- Shell kinds, `enum class ShellType` of `zrun_types.h`. -/
inductive ShellType where
  | CMD
  | PowerShell
  | Bash
  | Sh
  deriving DecidableEq, Repr

/-- Lifecycle states, `enum class AsyncState` of `zrun_types.h`. -/
inductive AsyncState where
  | Running
  | Completed
  | Failed
  | TimedOut
  | Cancelled
  deriving DecidableEq, Repr

/-- The record `struct CommandResult` of `zrun_types.h` with its default member
initialisers. -/
structure CommandResult where
  exitCode : Int := 0
  output : Str := []
  error : Str := []
  executionTime : Int := 0
  timedOut : Bool := false
  deriving DecidableEq, Repr

/-- One loop iteration of the PowerShell, CMD and Sh cases of
`buildShellCommand`: `if (c == '\"') fullCommand += "\\\""; else fullCommand += c;`. -/
def appendQuoteEscaped (fullCommand : Str) (c : Char) : Str :=
  if c = dquote then fullCommand ++ [backslash, dquote]
  else fullCommand ++ [c]

/-- One loop iteration of the Bash case of `buildShellCommand`. -/
def appendBashEscaped (fullCommand : Str) (c : Char) : Str :=
  if c = dquote then fullCommand ++ [backslash, dquote]
  else if c = dollar then fullCommand ++ [backslash, dollar]
  else if c = backtick then fullCommand ++ [backslash, backtick]
  else fullCommand ++ [c]

/-- The method `CoreImpl::buildShellCommand`; the only member it reads is
`m_executionPolicy`, passed as the first argument. -/
def buildShellCommand (m_executionPolicy : Str) (command : Str) (shellType : ShellType) : Str :=
  match shellType with
  | .PowerShell =>
    let fullCommand := "powershell -NoProfile -ExecutionPolicy ".toList
    let fullCommand := fullCommand ++
      (if m_executionPolicy.isEmpty then "Bypass".toList else m_executionPolicy)
    let fullCommand := fullCommand ++ " -Command \"".toList
    let fullCommand := command.foldl appendQuoteEscaped fullCommand
    fullCommand ++ "\"".toList
  | .CMD =>
    let fullCommand := "cmd.exe /C \"".toList
    let fullCommand := command.foldl appendQuoteEscaped fullCommand
    fullCommand ++ "\"".toList
  | .Bash =>
    let fullCommand := "bash -c \"".toList
    let fullCommand := command.foldl appendBashEscaped fullCommand
    fullCommand ++ "\"".toList
  | .Sh =>
    let fullCommand := "sh -c \"".toList
    let fullCommand := command.foldl appendQuoteEscaped fullCommand
    fullCommand ++ "\"".toList

/-- The replacement the claim on Bash describes for one character: a double
quote, a dollar sign or a backtick becomes a backslash followed by that same
character, any other character stays as it is. -/
def bashReplacement (c : Char) : Str :=
  if c = dquote ∨ c = dollar ∨ c = backtick then [backslash, c] else [c]

/-- The replacement the claim on PowerShell, CMD and Sh describes for one
character: a double quote becomes backslash + double quote, any other character
stays as it is. -/
def quoteReplacement (c : Char) : Str :=
  if c = dquote then [backslash, dquote] else [c]

/-- The text of the invocation up to and including the wrapper's opening
double quote, as the claims on the builder describe it: the interpreter prefix,
for PowerShell with the execution policy (or `Bypass` when the policy is empty)
and ` -Command `, then the opening double quote. -/
def wrapperHead (policy : Str) (shellType : ShellType) : Str :=
  match shellType with
  | .PowerShell =>
    "powershell -NoProfile -ExecutionPolicy ".toList
      ++ (if policy = [] then "Bypass".toList else policy) ++ " -Command ".toList ++ [dquote]
  | .CMD => "cmd.exe /C ".toList ++ [dquote]
  | .Bash => "bash -c ".toList ++ [dquote]
  | .Sh => "sh -c ".toList ++ [dquote]

/-- The number of consecutive backslashes at the end of `s`. -/
def trailingBackslashes (s : Str) : Nat :=
  (s.reverse.takeWhile (fun c => decide (c = backslash))).length

/-- Every double quote of `s` lying strictly between position `openPos` (the
wrapper's opening double quote) and the last character of `s` (the closing
double quote) is escaped: the run of backslashes right before it has odd
length. -/
def innerQuotesEscaped (openPos : Nat) (s : Str) : Prop :=
  ∀ i < s.length - 1, openPos < i → s[i]? = some dquote →
    trailingBackslashes (s.take i) % 2 = 1

instance innerQuotesEscaped.decidable (openPos : Nat) (s : Str) :
    Decidable (innerQuotesEscaped openPos s) := by
  unfold innerQuotesEscaped
  infer_instance

/-- Arithmetic on `int`: the value of `x` wrapped into the 32-bit
two's-complement range, as `std::atomic<int>` arithmetic does. -/
def wrapInt32 (x : Int) : Int :=
  (x + 2147483648) % 4294967296 - 2147483648

/-- The model of `OutputCallback` (a `std::function`): `none` is the empty
function (`nullptr`), `some h` a callable identified by the handle `h`. -/
abbrev OutputCallback := Option Nat

/-- One invocation `outputCallback(output, isError)` made by a worker. -/
structure CallbackCall where
  output : Str
  isError : Bool
  deriving DecidableEq, Repr

/-- The record `struct CoreImpl::AsyncCommand`: the data members with their
initial values (`state{Running}`, default `result`, `cancelled{false}`). The
members `thread`, `mutex` and `cv` carry no data. -/
structure AsyncCommand where
  id : Int
  command : Str
  shellType : ShellType
  timeoutMs : Int
  outputCallback : OutputCallback
  state : AsyncState := AsyncState.Running
  result : CommandResult := {}
  cancelled : Bool := false
  deriving DecidableEq, Repr

/-- Lookup in a `std::map<int, T>` kept as a list of entries: `find`. -/
def mapFind {α : Type} : List (Int × α) → Int → Option α
  | [], _ => none
  | (k, v) :: rest, key => if key = k then some v else mapFind rest key

/-- The assignment `m[key] = value` on a `std::map<int, T>`: the entry of `key`
is replaced when there is one, and inserted in key order otherwise. -/
def mapAssign {α : Type} : List (Int × α) → Int → α → List (Int × α)
  | [], key, value => [(key, value)]
  | (k, v) :: rest, key, value =>
    if key < k then (key, value) :: (k, v) :: rest
    else if key = k then (key, value) :: rest
    else (k, v) :: mapAssign rest key value

/-- A write through the pointer stored under `key` (`it->second->member = ...`):
the record under `key` becomes `f` of itself, the other entries stay. -/
def mapUpdate {α : Type} (m : List (Int × α)) (key : Int) (f : α → α) : List (Int × α) :=
  m.map (fun e => if e.1 = key then (e.1, f e.2) else e)

/-- The data members of `class CoreImpl` (`zrun_core.h`); `m_asyncMutex` carries
no data. `m_asyncCommands` is the registry. -/
structure CoreImpl where
  m_workingDirectory : Str := []
  m_environment : List (Str × Str) := []
  m_executionPolicy : Str := []
  m_asyncCommands : List (Int × AsyncCommand) := []
  deriving DecidableEq, Repr

/-- The method `CoreImpl::setExecutionPolicy`. -/
def setExecutionPolicy (core : CoreImpl) (policy : Str) : CoreImpl :=
  { core with m_executionPolicy := policy }

/-- The method `CoreImpl::buildShellCommand` on an instance. -/
def CoreImpl.buildShellCommand (core : CoreImpl) (command : Str) (shellType : ShellType) : Str :=
  Zrun.buildShellCommand core.m_executionPolicy command shellType

/-- The static method `CoreImpl::nextAsyncId`: `return s_nextAsyncId++;` on the
process-wide counter. Returns the id and the new value of the counter. -/
def nextAsyncId (s_nextAsyncId : Int) : Int × Int :=
  (s_nextAsyncId, wrapInt32 (s_nextAsyncId + 1))

/-- The method `CoreImpl::executeAsync`: takes the next id, builds the record,
stores it in the registry. Returns the id, the instance and the counter. The
worker thread it starts completes later, see `workerFinish`. -/
def executeAsync (core : CoreImpl) (s_nextAsyncId : Int) (command : Str)
    (shellType : ShellType) (timeoutMs : Int) (outputCallback : OutputCallback) :
    Int × CoreImpl × Int :=
  let (asyncId, counter) := nextAsyncId s_nextAsyncId
  let asyncCmd : AsyncCommand :=
    { id := asyncId, command := command, shellType := shellType, timeoutMs := timeoutMs,
      outputCallback := outputCallback }
  (asyncId, { core with m_asyncCommands := mapAssign core.m_asyncCommands asyncId asyncCmd },
    counter)

/-- The method `CoreImpl::asyncExecutionThread` from the point where the engine
call `executeSync(cmd->command, cmd->shellType, cmd->timeoutMs)` has returned
`result`: the record after the worker, and the callback invocations it made, in
order. -/
def asyncExecutionThread (cmd : AsyncCommand) (result : CommandResult) :
    AsyncCommand × List CallbackCall :=
  let cmd : AsyncCommand :=
    if cmd.cancelled then
      { cmd with state := AsyncState.Cancelled }
    else
      let cmd : AsyncCommand := { cmd with result := result }
      { cmd with state :=
          if cmd.result.timedOut then AsyncState.TimedOut
          else if cmd.result.exitCode = 0 then AsyncState.Completed else AsyncState.Failed }
  let calls : List CallbackCall :=
    if cmd.outputCallback.isSome && !cmd.cancelled then
      (if !cmd.result.output.isEmpty then [{ output := cmd.result.output, isError := false }]
        else [])
      ++ (if !cmd.result.error.isEmpty then [{ output := cmd.result.error, isError := true }]
        else [])
    else []
  (cmd, calls)

/-- The worker of the record stored under `asyncId` returns from the engine with
`result` and runs the rest of `asyncExecutionThread` on that record (the worker
and the registry share the record through a `shared_ptr`). -/
def workerFinish (core : CoreImpl) (asyncId : Int) (result : CommandResult) :
    CoreImpl × List CallbackCall :=
  match mapFind core.m_asyncCommands asyncId with
  | none => (core, [])
  | some cmd =>
    let done := asyncExecutionThread cmd result
    ({ core with m_asyncCommands := mapUpdate core.m_asyncCommands asyncId (fun _ => done.1) },
      done.2)

/-- The method `CoreImpl::getAsyncStatus`, with the instance after the call. -/
def getAsyncStatus (core : CoreImpl) (asyncId : Int) : AsyncState × CoreImpl :=
  match mapFind core.m_asyncCommands asyncId with
  | none => (AsyncState.Failed, core)
  | some cmd => (cmd.state, core)

/-- How a call of `getAsyncResult` proceeds: it returns `ok` with the
out-parameter holding `result`, or the caller is suspended in `cv.wait` because
the record is `Running`. -/
inductive ResultCall where
  | returned (ok : Bool) (result : CommandResult)
  | waiting
  deriving DecidableEq, Repr

/-- The method `CoreImpl::getAsyncResult`; `result` is the value the
out-parameter holds at the call. With the instance after the call. -/
def getAsyncResult (core : CoreImpl) (asyncId : Int) (result : CommandResult) :
    ResultCall × CoreImpl :=
  match mapFind core.m_asyncCommands asyncId with
  | none => (ResultCall.returned false result, core)
  | some cmd =>
    if cmd.state = AsyncState.Running then (ResultCall.waiting, core)
    else (ResultCall.returned true cmd.result, core)

/-- The method `CoreImpl::terminateAsync`: the returned flag and the instance
after the call. -/
def terminateAsync (core : CoreImpl) (asyncId : Int) : Bool × CoreImpl :=
  match mapFind core.m_asyncCommands asyncId with
  | none => (false, core)
  | some _ =>
    let records := mapUpdate core.m_asyncCommands asyncId
      (fun cmd => { cmd with cancelled := true, state := AsyncState.Cancelled })
    (true, { core with m_asyncCommands := records })

/-- The facade method `ZRun::getAsyncResult` of `zrun_cpp.cpp`: a default
`CommandResult` is passed as out-parameter and returned whatever the core
reports; `none` when the core call is suspended. -/
def ZRun.getAsyncResult (core : CoreImpl) (asyncId : Int) : Option CommandResult × CoreImpl :=
  let result : CommandResult := {}
  match Zrun.getAsyncResult core asyncId result with
  | (ResultCall.returned _ result, core) => (some result, core)
  | (ResultCall.waiting, core) => (none, core)

/-- The state of a process: the static counter `CoreImpl::s_nextAsyncId`
(initialised to 1) and the `CoreImpl` instances, by instance number. -/
structure Process where
  s_nextAsyncId : Int := 1
  cores : Nat → CoreImpl := fun _ => {}

/-- One call of `executeAsync`: the instance it is made on and its arguments. -/
structure Submission where
  inst : Nat
  command : Str
  shellType : ShellType
  timeoutMs : Int
  outputCallback : OutputCallback

/-- A submission made in a process: the id returned and the process after. -/
def Process.submit (p : Process) (s : Submission) : Int × Process :=
  let r := executeAsync (p.cores s.inst) p.s_nextAsyncId s.command s.shellType s.timeoutMs
    s.outputCallback
  (r.1, { s_nextAsyncId := r.2.2, cores := Function.update p.cores s.inst r.2.1 })

/-- A sequence of submissions made one after the other: the ids returned, in
submission order, and the process after. -/
def Process.submitAll : Process → List Submission → List Int × Process
  | p, [] => ([], p)
  | p, s :: rest =>
    let r := p.submit s
    let rs := Process.submitAll r.2 rest
    (r.1 :: rs.1, rs.2)

/-- An operation on the records of one instance: a submission, the completion
of the worker of a record with the engine's result, a call of `terminateAsync`. -/
inductive CoreOp where
  | submit (command : Str) (shellType : ShellType) (timeoutMs : Int)
      (outputCallback : OutputCallback)
  | finish (asyncId : Int) (result : CommandResult)
  | terminate (asyncId : Int)

/-- The effect of an operation on an instance and the id counter. -/
def CoreOp.apply (st : CoreImpl × Int) : CoreOp → CoreImpl × Int
  | .submit command shellType timeoutMs outputCallback =>
    (executeAsync st.1 st.2 command shellType timeoutMs outputCallback).2
  | .finish asyncId result => ((workerFinish st.1 asyncId result).1, st.2)
  | .terminate asyncId => ((terminateAsync st.1 asyncId).2, st.2)

/-- The instance and counter reached from a fresh instance in a fresh process by
a sequence of operations. -/
def reach (ops : List CoreOp) : CoreImpl × Int :=
  ops.foldl CoreOp.apply ({}, 1)

/-- Every record of the registry that is `Running` still has its initial
`result` and `cancelled` members. -/
def RunningIsFresh (core : CoreImpl) : Prop :=
  ∀ (asyncId : Int) (cmd : AsyncCommand), mapFind core.m_asyncCommands asyncId = some cmd →
    cmd.state = AsyncState.Running → cmd.result = {} ∧ cmd.cancelled = false

/-- Every double quote of `s` after position `openPos` is escaped (here the
last character of `s` counts too). -/
def quotesEscapedAfter (openPos : Nat) (s : Str) : Prop :=
  ∀ i < s.length, openPos < i → s[i]? = some dquote →
    trailingBackslashes (s.take i) % 2 = 1

/-- The characters the builder puts a backslash before, for each shell kind. -/
def escapedChar (shellType : ShellType) (c : Char) : Bool :=
  match shellType with
  | .Bash => decide (c = dquote) || decide (c = dollar) || decide (c = backtick)
  | _ => decide (c = dquote)

/-- Removal of the inserted backslashes: a backslash standing right before an
escaped character is dropped, every other character is kept. -/
def unescape (shellType : ShellType) : Str → Str
  | [] => []
  | [c] => [c]
  | c :: d :: rest =>
    if c = backslash ∧ escapedChar shellType d = true then d :: unescape shellType rest
    else c :: unescape shellType (d :: rest)

/-- The decoding the claim on injectivity describes: strip the wrapper prefix
and the closing quote, then remove the inserted backslashes. -/
def decodeCommand (policy : Str) (shellType : ShellType) (invocation : Str) : Str :=
  unescape shellType ((invocation.drop (wrapperHead policy shellType).length).dropLast)

/-- The whole of `CoreImpl::asyncExecutionThread` run by the worker of the
record stored under `asyncId`, the engine being the function `executeSync`: the
worker calls `executeSync(cmd->command, cmd->shellType, cmd->timeoutMs)` and
goes on with the result as in `workerFinish`. -/
def workerRun (executeSync : Str → ShellType → Int → CommandResult) (core : CoreImpl)
    (asyncId : Int) : CoreImpl × List CallbackCall :=
  match mapFind core.m_asyncCommands asyncId with
  | none => (core, [])
  | some cmd => workerFinish core asyncId (executeSync cmd.command cmd.shellType cmd.timeoutMs)

/-- The operation does not act on the record stored under `asyncId`: it is a
completion or a termination of another record, or a submission that is given
another id. -/
def CoreOp.leaves (asyncId : Int) (st : CoreImpl × Int) : CoreOp → Prop
  | .submit _ _ _ _ => st.2 ≠ asyncId
  | .finish other _ => other ≠ asyncId
  | .terminate other => other ≠ asyncId

/-- None of the operations, applied in order from `st`, acts on the record
stored under `asyncId`. -/
def leavesAll (asyncId : Int) : CoreImpl × Int → List CoreOp → Prop
  | _, [] => True
  | st, op :: rest => op.leaves asyncId st ∧ leavesAll asyncId (op.apply st) rest

instance CoreOp.leaves.decidable (asyncId : Int) (st : CoreImpl × Int) :
    (op : CoreOp) → Decidable (op.leaves asyncId st)
  | .submit _ _ _ _ => inferInstanceAs (Decidable (st.2 ≠ asyncId))
  | .finish other _ => inferInstanceAs (Decidable (other ≠ asyncId))
  | .terminate other => inferInstanceAs (Decidable (other ≠ asyncId))

instance leavesAll.decidable (asyncId : Int) :
    (st : CoreImpl × Int) → (ops : List CoreOp) → Decidable (leavesAll asyncId st ops)
  | _, [] => isTrue trivial
  | st, op :: rest =>
    have := leavesAll.decidable asyncId (op.apply st) rest
    inferInstanceAs (Decidable (op.leaves asyncId st ∧ leavesAll asyncId (op.apply st) rest))

/-- The C struct `zrun_command_result` of `zrun.h`; the two `char*` members are
the C strings they point to. -/
structure zrun_command_result where
  exit_code : Int
  output : Str
  error : Str
  execution_time : Int
  timed_out : Int
  deriving DecidableEq, Repr

/-- The helper `toStdString` of `zrun_c.cpp`; `none` is the null pointer. -/
def toStdString (str : Option Str) : Str :=
  match str with
  | some s => s
  | none => []

/-- The helper `toCString` of `zrun_c.cpp`: `strcpy` copies the characters up
to the first NUL. -/
def toCString (str : Str) : Str :=
  str.takeWhile (fun c => decide (c ≠ Char.ofNat 0))

/-- The helper `toCResult` of `zrun_c.cpp`. -/
def toCResult (result : CommandResult) : zrun_command_result :=
  { exit_code := result.exitCode
    output := toCString result.output
    error := toCString result.error
    execution_time := result.executionTime
    timed_out := if result.timedOut then 1 else 0 }

/-- The helper `toCppShellType` of `zrun_c.cpp` on the integer value of the C
enum `zrun_shell_type`. -/
def toCppShellType (shell_type : Int) : ShellType :=
  if shell_type = 0 then ShellType.CMD
  else if shell_type = 1 then ShellType.PowerShell
  else if shell_type = 2 then ShellType.Bash
  else if shell_type = 3 then ShellType.Sh
  else ShellType.PowerShell

/-- How a call of the engine `CoreImpl::executeSync` ends for its caller: it
returns a result, throws a `std::exception` with the text `what`, or throws
something else. -/
inductive EngineOutcome where
  | returns (result : CommandResult)
  | throwsStd (what : Str)
  | throwsOther
  deriving DecidableEq, Repr

/-- The C entry point `zrun_execute_sync` of `zrun_c.cpp`. `inst` and `command`
are the two pointers (`none` is null), `executeSync` is the engine of the
instance. Returns the C result and the engine calls made, in order. -/
def zrun_execute_sync (executeSync : CoreImpl → Str → ShellType → Int → EngineOutcome)
    (inst : Option CoreImpl) (command : Option Str) (shell_type : Int) (timeout_ms : Int) :
    zrun_command_result × List (Str × ShellType × Int) :=
  match inst, command with
  | some zrun, some cmd =>
    let call := (toStdString (some cmd), toCppShellType shell_type, timeout_ms)
    match executeSync zrun call.1 call.2.1 call.2.2 with
    | .returns result => (toCResult result, [call])
    | .throwsStd what =>
      ({ exit_code := -1, output := toCString "".toList,
         error := toCString ("Exception: ".toList ++ what),
         execution_time := 0, timed_out := 0 }, [call])
    | .throwsOther =>
      ({ exit_code := -1, output := toCString "".toList,
         error := toCString "Unknown exception".toList,
         execution_time := 0, timed_out := 0 }, [call])
  | _, _ =>
    ({ exit_code := -1, output := toCString "".toList,
       error := toCString "Invalid arguments".toList,
       execution_time := 0, timed_out := 0 }, [])

/-- What `waitpid` stores in `status` for a child that has terminated:
`WIFEXITED` with `WEXITSTATUS = code`, or not `WIFEXITED`. -/
inductive WaitStatus where
  | exited (code : Nat)
  | signaled
  deriving DecidableEq, Repr

/-- The outcome of `waitpid(pid, &status, WNOHANG)`: it returns `pid` (the child
is reaped), 0 (the child still runs), or -1 with `errno` equal to `ECHILD` or
not, `message` being `strerror(errno)`. -/
inductive WaitPoll where
  | reaped (status : WaitStatus)
  | running
  | failed (echild : Bool) (message : Str)
  deriving DecidableEq, Repr

/-- What one iteration of the poll loop of `executeSyncUnix` observes: the clock
reading at the head of the loop (nanoseconds), the outcome `waitpid` has at that
iteration, and the bytes the two non-blocking pipe reads deliver. -/
structure PollStep where
  now : Int
  wait : WaitPoll
  out : Str
  err : Str
  deriving DecidableEq, Repr

/-- How the poll loop is left: the result so far, the flag `processDone`, and
whether `kill(pid, SIGTERM)` was called. -/
structure LoopExit where
  result : CommandResult
  processDone : Bool
  killed : Bool
  deriving DecidableEq, Repr

/-- The loop `while (!processDone)` of `executeSyncUnix` over the observations of
its iterations; `none` when the observations end while the loop still runs. -/
def pollLoop (timeoutTime : Int) : List PollStep → CommandResult → Option LoopExit
  | [], _ => none
  | step :: rest, result =>
    if step.now > timeoutTime then
      some { result := { result with timedOut := true }, processDone := false, killed := true }
    else
      match step.wait with
      | .reaped (.exited code) =>
        some { result := { result with exitCode := code, output := result.output ++ step.out,
                                       error := result.error ++ step.err },
               processDone := true, killed := false }
      | .reaped .signaled =>
        some { result := { result with exitCode := -1, output := result.output ++ step.out,
                                       error := result.error ++ step.err },
               processDone := true, killed := false }
      | .failed false message =>
        some { result := { result with exitCode := -1,
                                       error := "waitpid failed: ".toList ++ message },
               processDone := false, killed := false }
      | .failed true _ =>
        pollLoop timeoutTime rest
          { result with output := result.output ++ step.out, error := result.error ++ step.err }
      | .running =>
        pollLoop timeoutTime rest
          { result with output := result.output ++ step.out, error := result.error ++ step.err }

/-- The system calls of one run of `executeSyncUnix` as the parent sees them:
the first clock reading, the two `pipe` calls (read end and write end, `none`
when the call fails), `fork` (the child's pid, `none` when it fails), the
`strerror(errno)` texts, the observations of the poll loop, the bytes of the
final drain, whether the blocking `waitpid(pid, &status, 0)` reaps the child,
and the last clock reading. Clock readings are in nanoseconds. -/
structure UnixEnv where
  startTime : Int
  stdoutPipe : Option (Nat × Nat)
  stderrPipe : Option (Nat × Nat)
  pipeError : Str
  pid : Option Nat
  forkError : Str
  polls : List PollStep
  finalOut : Str
  finalErr : Str
  finalWait : Bool
  endTime : Int
  deriving DecidableEq, Repr

/-- What became of the child process by the time `executeSyncUnix` returns. -/
inductive ChildFate where
  | notForked
  | reaped
  | unreaped
  deriving DecidableEq, Repr

/-- What a run of `executeSyncUnix` leaves behind: the returned result, the
descriptors open at return, the command line handed to `/bin/sh -c` in the
child, the fate of the child, whether `SIGTERM` was sent. -/
structure EngineReturn where
  result : CommandResult
  openFds : List Nat
  spawned : Option Str
  child : ChildFate
  killed : Bool
  deriving DecidableEq, Repr

/-- The call `close(fd)` on the list of open descriptors. -/
def closeFd (openFds : List Nat) (fd : Nat) : List Nat :=
  openFds.filter (fun d => decide (d ≠ fd))

/-- The method `CoreImpl::executeSyncUnix` as the parent process runs it;
`openFds` are the descriptors open at entry. `none` when the observations of the
poll loop end while the loop still runs. -/
def executeSyncUnix (core : CoreImpl) (env : UnixEnv) (openFds : List Nat) (command : Str)
    (shellType : ShellType) (timeoutMs : Int) : Option EngineReturn :=
  let result : CommandResult := {}
  let fullCommand := core.buildShellCommand command shellType
  match env.stdoutPipe with
  | none =>
    some { result := { result with exitCode := -1,
                                   error := "Failed to create pipe: ".toList ++ env.pipeError },
           openFds := openFds, spawned := none, child := ChildFate.notForked, killed := false }
  | some (stdout0, stdout1) =>
    let openFds := openFds ++ [stdout0, stdout1]
    match env.stderrPipe with
    | none =>
      some { result := { result with exitCode := -1,
                                     error := "Failed to create pipe: ".toList ++ env.pipeError },
             openFds := openFds, spawned := none, child := ChildFate.notForked, killed := false }
    | some (stderr0, stderr1) =>
      let openFds := openFds ++ [stderr0, stderr1]
      match env.pid with
      | none =>
        let openFds := closeFd (closeFd (closeFd (closeFd openFds stdout0) stdout1) stderr0) stderr1
        some { result := { result with exitCode := -1,
                                       error := "Fork failed: ".toList ++ env.forkError },
               openFds := openFds, spawned := none, child := ChildFate.notForked,
               killed := false }
      | some _ =>
        let openFds := closeFd (closeFd openFds stdout1) stderr1
        let timeoutTime := env.startTime + timeoutMs * 1000000
        match pollLoop timeoutTime env.polls result with
        | none => none
        | some exit =>
          let result := { exit.result with output := exit.result.output ++ env.finalOut,
                                           error := exit.result.error ++ env.finalErr }
          let openFds := closeFd (closeFd openFds stdout0) stderr0
          let child :=
            if exit.processDone then ChildFate.reaped
            else if env.finalWait then ChildFate.reaped else ChildFate.unreaped
          some { result := { result with
                    executionTime := (env.endTime - env.startTime).tdiv 1000000 },
                 openFds := openFds, spawned := some fullCommand, child := child,
                 killed := exit.killed }

/-- The observations of a poll loop whose iterations start at the clock readings
`clock`, for a child that exits normally with status `code` at time `exitTime`
and writes nothing: `waitpid` finds the child terminated from `exitTime` on. -/
def pollsOfExit (exitTime : Int) (code : Nat) (clock : List Int) : List PollStep :=
  clock.map (fun now =>
    { now := now,
      wait := if exitTime ≤ now then WaitPoll.reaped (WaitStatus.exited code)
              else WaitPoll.running,
      out := [], err := [] })

/-- The shared state of an instance used by several threads: its data members,
the owner of `m_asyncMutex` (`none` when it is free) and, for every record whose
`mutex` is held, the record's id with the owning thread. -/
structure Shared where
  core : CoreImpl
  m_asyncMutex : Option Nat := none
  recordMutex : List (Int × Nat) := []
  deriving DecidableEq, Repr

/-- A call running on a thread: one of the three registry methods, the worker
`asyncExecutionThread` of a record from the point where the engine has returned
`result`, or the destructor `~CoreImpl`. -/
inductive Call where
  | getAsyncStatus (asyncId : Int)
  | getAsyncResult (asyncId : Int) (result : CommandResult)
  | terminateAsync (asyncId : Int)
  | asyncExecutionThread (asyncId : Int) (result : CommandResult)
  | destroy
  deriving DecidableEq, Repr

/-- What a finished call returned. -/
inductive ReturnValue where
  | status (state : AsyncState)
  | result (ok : Bool) (result : CommandResult)
  | flag (ok : Bool)
  | unit
  deriving DecidableEq, Repr

/-- A thread: its call, the position reached in it, the destructor's position in
its loop over the registry, and the value returned once the call is over. -/
structure Thread where
  call : Call
  pc : Nat := 0
  idx : Nat := 0
  returned : Option ReturnValue := none
  deriving DecidableEq, Repr

/-- What happens when a thread is given the processor: it takes its next step;
or it cannot (it waits for a mutex another thread holds, or it is inside
`cv.wait` and the record is still `Running`); or it locks a `std::mutex` it
already owns (undefined behaviour, in practice a deadlock with itself); or its
call is over. -/
inductive Step where
  | next (thread : Thread) (shared : Shared)
  | blocked
  | relock
  | done
  deriving DecidableEq, Repr

/-- The statement `std::lock_guard<std::mutex> lock(m_asyncMutex);` executed by
thread `tid`, which goes on at position `pc`. -/
def lockRegistry (tid : Nat) (t : Thread) (s : Shared) (pc : Nat) : Step :=
  match s.m_asyncMutex with
  | none => Step.next { t with pc := pc } { s with m_asyncMutex := some tid }
  | some owner => if owner = tid then Step.relock else Step.blocked

/-- Locking the `mutex` of the record `asyncId` by thread `tid`, which goes on at
position `pc`. -/
def lockRecord (tid : Nat) (t : Thread) (s : Shared) (asyncId : Int) (pc : Nat) : Step :=
  match mapFind s.recordMutex asyncId with
  | none =>
    Step.next { t with pc := pc } { s with recordMutex := (asyncId, tid) :: s.recordMutex }
  | some owner => if owner = tid then Step.relock else Step.blocked

/-- Unlocking the `mutex` of the record `asyncId`. -/
def unlockRecord (s : Shared) (asyncId : Int) : Shared :=
  { s with recordMutex := s.recordMutex.filter (fun e => decide (e.1 ≠ asyncId)) }

/-- One step of thread `tid`, at the granularity of the lock operations.

* `getAsyncStatus`: 0 locks `m_asyncMutex`; 1 runs the body and unlocks.
* `terminateAsync`: 0 locks `m_asyncMutex`; 1 runs the body (with `notify_all`)
  and unlocks.
* `getAsyncResult`: 0 locks `m_asyncMutex`; 1 looks the id up, returns false
  when it is unknown and locks the record's `mutex` otherwise; 2 tests the state
  and enters `cv.wait`, which unlocks the record's `mutex` only; 3 is inside
  `cv.wait`: the thread goes on when the state is not `Running` and the record's
  `mutex` can be locked again; 4 copies the result, unlocks both and returns.
* `asyncExecutionThread`: 0 locks the record's `mutex`; 1 runs the rest of the
  worker and unlocks.
* `~CoreImpl`: 0 locks `m_asyncMutex`; 1 is the head of the loop: at the end of
  the registry it clears it, unlocks and returns, at a `Running` record it sets
  `cancelled` and goes to 2, at any other record it moves on; 2 is the lock
  statement of the nested `terminateAsync`; 3 is the body of the nested
  `terminateAsync`, whose `lock_guard` unlocks on return. -/
def stepThread (tid : Nat) (t : Thread) (s : Shared) : Step :=
  match t.call, t.pc with
  | .getAsyncStatus _, 0 => lockRegistry tid t s 1
  | .getAsyncStatus asyncId, 1 =>
    let r := Zrun.getAsyncStatus s.core asyncId
    Step.next { t with pc := 2, returned := some (ReturnValue.status r.1) }
      { s with core := r.2, m_asyncMutex := none }
  | .terminateAsync _, 0 => lockRegistry tid t s 1
  | .terminateAsync asyncId, 1 =>
    let r := Zrun.terminateAsync s.core asyncId
    Step.next { t with pc := 2, returned := some (ReturnValue.flag r.1) }
      { s with core := r.2, m_asyncMutex := none }
  | .getAsyncResult _ _, 0 => lockRegistry tid t s 1
  | .getAsyncResult asyncId result, 1 =>
    match mapFind s.core.m_asyncCommands asyncId with
    | none =>
      Step.next { t with pc := 5, returned := some (ReturnValue.result false result) }
        { s with m_asyncMutex := none }
    | some _ => lockRecord tid t s asyncId 2
  | .getAsyncResult asyncId _, 2 =>
    match mapFind s.core.m_asyncCommands asyncId with
    | none => Step.blocked
    | some cmd =>
      if cmd.state = AsyncState.Running then
        Step.next { t with pc := 3 } (unlockRecord s asyncId)
      else Step.next { t with pc := 4 } s
  | .getAsyncResult asyncId _, 3 =>
    match mapFind s.core.m_asyncCommands asyncId with
    | none => Step.blocked
    | some cmd =>
      if cmd.state = AsyncState.Running then Step.blocked
      else lockRecord tid t s asyncId 4
  | .getAsyncResult asyncId _, 4 =>
    match mapFind s.core.m_asyncCommands asyncId with
    | none => Step.blocked
    | some cmd =>
      Step.next { t with pc := 5, returned := some (ReturnValue.result true cmd.result) }
        { unlockRecord s asyncId with m_asyncMutex := none }
  | .asyncExecutionThread asyncId _, 0 => lockRecord tid t s asyncId 1
  | .asyncExecutionThread asyncId result, 1 =>
    let r := workerFinish s.core asyncId result
    Step.next { t with pc := 2, returned := some ReturnValue.unit }
      { unlockRecord s asyncId with core := r.1 }
  | .destroy, 0 => lockRegistry tid t s 1
  | .destroy, 1 =>
    match s.core.m_asyncCommands.get? t.idx with
    | none =>
      Step.next { t with pc := 4, returned := some ReturnValue.unit }
        { s with core := { s.core with m_asyncCommands := [] }, m_asyncMutex := none }
    | some pair =>
      if pair.2.state = AsyncState.Running then
        let records := mapUpdate s.core.m_asyncCommands pair.1
          (fun cmd => { cmd with cancelled := true })
        Step.next { t with pc := 2 } { s with core := { s.core with m_asyncCommands := records } }
      else Step.next { t with idx := t.idx + 1 } s
  | .destroy, 2 => lockRegistry tid t s 3
  | .destroy, 3 =>
    match s.core.m_asyncCommands.get? t.idx with
    | none => Step.blocked
    | some pair =>
      let r := Zrun.terminateAsync s.core pair.1
      Step.next { t with pc := 1, idx := t.idx + 1 } { s with core := r.2, m_asyncMutex := none }
  | _, _ => Step.done

/-- An instance with the threads using it; a thread's number is its position in
the list. -/
structure System where
  shared : Shared
  threads : List Thread
  deriving DecidableEq, Repr

/-- What thread `tid` of the system can do now. -/
def System.poll (sys : System) (tid : Nat) : Step :=
  match sys.threads.get? tid with
  | none => Step.done
  | some t => stepThread tid t sys.shared

/-- The system after thread `tid` took one step; `none` when it cannot take
one. -/
def System.step (sys : System) (tid : Nat) : Option System :=
  match sys.poll tid with
  | .next t s => some { shared := s, threads := sys.threads.set tid t }
  | _ => none

/-- The system after the threads named by `schedule` took one step each, in
that order; `none` when one of them cannot take its step. -/
def System.run (sys : System) : List Nat → Option System
  | [] => some sys
  | tid :: rest =>
    match sys.step tid with
    | none => none
    | some next => System.run next rest

/-- An instance whose registry holds one record, submitted as id 1 and still
`Running`, used by four threads: thread 0 calls `getAsyncResult(1)`, thread 1
calls `terminateAsync(1)`, thread 2 calls `getAsyncStatus(1)`, and thread 3 is
the worker of the record, whose engine call returns `result`. -/
def waiterSystem (result : CommandResult) : System :=
  { shared := { core := (executeAsync {} 1 "sleep 60".toList ShellType.Sh 90000 none).2.1 },
    threads := [{ call := Call.getAsyncResult 1 {} }, { call := Call.terminateAsync 1 },
                { call := Call.getAsyncStatus 1 },
                { call := Call.asyncExecutionThread 1 result }] }

/-- An instance whose registry holds one record, submitted as id 1 and still
`Running`, with one thread that destroys the instance. -/
def destructorSystem : System :=
  { shared := { core := (executeAsync {} 1 "sleep 60".toList ShellType.Sh 90000 none).2.1 },
    threads := [{ call := Call.destroy }] }

/-- The thread is inside a critical section of `m_asyncMutex`: between the lock
statement of its method and the end of the method. -/
def holdsRegistry (t : Thread) : Bool :=
  match t.call, t.pc with
  | .getAsyncStatus _, 1 => true
  | .terminateAsync _, 1 => true
  | .getAsyncResult _ _, 1 => true
  | .getAsyncResult _ _, 2 => true
  | .getAsyncResult _ _, 3 => true
  | .getAsyncResult _ _, 4 => true
  | .destroy, 1 => true
  | .destroy, 2 => true
  | _, _ => false

/-- Every thread inside a critical section of `m_asyncMutex` owns the mutex, and
no destructor is inside the body of its nested `terminateAsync`. -/
def lockInvariant (sys : System) : Prop :=
  ∀ (tid : Nat) (t : Thread), sys.threads.get? tid = some t →
    (holdsRegistry t = true → sys.shared.m_asyncMutex = some tid)
      ∧ ¬ (t.call = Call.destroy ∧ t.pc = 3)

theorem dollar_ne_dquote : dollar ≠ dquote := by decide

theorem backtick_ne_dquote : backtick ≠ dquote := by decide

theorem backtick_ne_dollar : backtick ≠ dollar := by decide

theorem backslash_ne_dquote : backslash ≠ dquote := by decide

theorem foldl_appendBashEscaped (command acc : Str) :
    command.foldl appendBashEscaped acc = acc ++ command.flatMap bashReplacement := by
  induction command generalizing acc with
  | nil => simp
  | cons c cs ih =>
    rw [List.foldl_cons, ih, List.flatMap_cons]
    unfold appendBashEscaped bashReplacement
    by_cases h1 : c = dquote
    · simp [h1]
    · by_cases h2 : c = dollar
      · simp [h2, dollar_ne_dquote]
      · by_cases h3 : c = backtick
        · simp [h3, backtick_ne_dquote, backtick_ne_dollar]
        · simp [h1, h2, h3]

/-- C2: for every command, the Bash invocation is `bash -c ` and an opening
double quote, then the command with each double quote, dollar sign and backtick
replaced by a backslash and that character and every other character copied in
order, then one closing double quote. -/
theorem buildShellCommand_bash (m_executionPolicy command : Str) :
    buildShellCommand m_executionPolicy command ShellType.Bash
      = "bash -c ".toList ++ [dquote] ++ command.flatMap bashReplacement ++ [dquote] := by
  simp only [buildShellCommand, foldl_appendBashEscaped]
  rfl

theorem foldl_appendQuoteEscaped (command acc : Str) :
    command.foldl appendQuoteEscaped acc = acc ++ command.flatMap quoteReplacement := by
  induction command generalizing acc with
  | nil => simp
  | cons c cs ih =>
    rw [List.foldl_cons, ih, List.flatMap_cons]
    unfold appendQuoteEscaped quoteReplacement
    by_cases h1 : c = dquote
    · simp [h1]
    · simp [h1]

theorem flatMap_quoteReplacement_of_not_mem (command : Str) (h : dquote ∉ command) :
    command.flatMap quoteReplacement = command := by
  induction command with
  | nil => rfl
  | cons c cs ih =>
    have hc : c ≠ dquote := fun e => h (by simp [e])
    have hcs : dquote ∉ cs := fun m => h (List.mem_cons_of_mem _ m)
    simp [List.flatMap_cons, quoteReplacement, hc, ih hcs]

theorem buildShellCommand_eq_head (policy command : Str) (shellType : ShellType)
    (hk : shellType ≠ ShellType.Bash) :
    buildShellCommand policy command shellType
      = wrapperHead policy shellType ++ command.flatMap quoteReplacement ++ [dquote] := by
  cases shellType with
  | Bash => exact absurd rfl hk
  | PowerShell =>
    simp only [buildShellCommand, wrapperHead, foldl_appendQuoteEscaped]
    cases policy with
    | nil => rfl
    | cons c cs =>
      simp only [List.isEmpty_cons, Bool.false_eq_true, if_false, reduceCtorEq]
      have e : " -Command \"".toList = " -Command ".toList ++ [dquote] := by decide
      have e2 : "\"".toList = [dquote] := by decide
      rw [e, e2]
      simp only [List.append_assoc]
  | CMD =>
    simp only [buildShellCommand, wrapperHead, foldl_appendQuoteEscaped]
    rfl
  | Sh =>
    simp only [buildShellCommand, wrapperHead, foldl_appendQuoteEscaped]
    rfl

/-- C1, evaluated on the code: for the command made of a backslash followed by
a double quote, and for each of the four shell kinds, the built invocation
holds, strictly inside the wrapper quotes, a double quote preceded by two
backslashes: the inner quotes are not all escaped. -/
theorem buildShellCommand_backslash_quote_unescaped :
    buildShellCommand [] [backslash, dquote] ShellType.Sh
        = "sh -c ".toList ++ [dquote] ++ [backslash, backslash, dquote] ++ [dquote]
      ∧ ∀ shellType : ShellType,
          ¬ innerQuotesEscaped ((wrapperHead [] shellType).length - 1)
            (buildShellCommand [] [backslash, dquote] shellType) := by
  refine ⟨by decide, ?_⟩
  intro shellType
  cases shellType <;> decide

theorem trailingBackslashes_append_singleton (s : Str) (c : Char) :
    trailingBackslashes (s ++ [c])
      = if c = backslash then trailingBackslashes s + 1 else 0 := by
  unfold trailingBackslashes
  by_cases h : c = backslash
  · simp [List.reverse_append, List.takeWhile_cons, h]
  · simp [List.reverse_append, List.takeWhile_cons, h]

theorem quotesEscapedAfter_snoc (openPos : Nat) (s : Str) (c : Char)
    (h : quotesEscapedAfter openPos s)
    (hc : c = dquote → trailingBackslashes s % 2 = 1) :
    quotesEscapedAfter openPos (s ++ [c]) := by
  intro i hi hlo hq
  have hi2 : i < s.length + 1 := by simpa using hi
  by_cases hlt : i < s.length
  · rw [List.getElem?_append_left hlt] at hq
    rw [List.take_append_of_le_length (le_of_lt hlt)]
    exact h i hlt hlo hq
  · have hie : i = s.length := by omega
    subst hie
    rw [List.getElem?_append_right (le_refl _)] at hq
    simp at hq
    rw [List.take_append_of_le_length (le_refl _), List.take_length]
    exact hc hq

theorem quotesEscapedAfter_step (openPos : Nat) (s : Str) (c : Char) (repl : Char → Str)
    (hrepl : (repl c = [c] ∧ c ≠ dquote) ∨ repl c = [backslash, c])
    (hc : c ≠ backslash)
    (h : quotesEscapedAfter openPos s) (h0 : trailingBackslashes s = 0) :
    quotesEscapedAfter openPos (s ++ repl c) ∧ trailingBackslashes (s ++ repl c) = 0 := by
  rcases hrepl with ⟨e, hq⟩ | e
  · rw [e]
    refine ⟨quotesEscapedAfter_snoc openPos s c h (fun hh => absurd hh hq), ?_⟩
    rw [trailingBackslashes_append_singleton, if_neg hc]
  · rw [e]
    have e2 : s ++ [backslash, c] = (s ++ [backslash]) ++ [c] := by simp
    rw [e2]
    refine ⟨quotesEscapedAfter_snoc openPos _ c
      (quotesEscapedAfter_snoc openPos s backslash h
        (fun hh => absurd hh backslash_ne_dquote)) ?_, ?_⟩
    · intro _
      rw [trailingBackslashes_append_singleton, if_pos rfl, h0]
    · rw [trailingBackslashes_append_singleton, if_neg hc]

theorem quotesEscapedAfter_flatMap (openPos : Nat) (repl : Char → Str) (command : Str)
    (hrepl : ∀ c, (repl c = [c] ∧ c ≠ dquote) ∨ repl c = [backslash, c])
    (hc : backslash ∉ command) (s : Str)
    (h : quotesEscapedAfter openPos s) (h0 : trailingBackslashes s = 0) :
    quotesEscapedAfter openPos (s ++ command.flatMap repl) := by
  induction command generalizing s with
  | nil => simpa using h
  | cons c cs ih =>
    have hcne : c ≠ backslash := fun e => hc (by simp [e])
    have hcs : backslash ∉ cs := fun m => hc (List.mem_cons_of_mem _ m)
    obtain ⟨h1, h2⟩ := quotesEscapedAfter_step openPos s c repl (hrepl c) hcne h h0
    rw [List.flatMap_cons, ← List.append_assoc]
    exact ih hcs _ h1 h2

theorem innerQuotesEscaped_of_after (openPos : Nat) (s : Str)
    (h : quotesEscapedAfter openPos s) : innerQuotesEscaped openPos (s ++ [dquote]) := by
  intro i hi hlo hq
  have hlt : i < s.length := by simpa using hi
  rw [List.getElem?_append_left hlt] at hq
  rw [List.take_append_of_le_length (le_of_lt hlt)]
  exact h i hlt hlo hq

theorem quoteReplacement_shape (c : Char) :
    (quoteReplacement c = [c] ∧ c ≠ dquote) ∨ quoteReplacement c = [backslash, c] := by
  unfold quoteReplacement
  by_cases h : c = dquote
  · right
    simp [h]
  · left
    simp [h]

theorem bashReplacement_shape (c : Char) :
    (bashReplacement c = [c] ∧ c ≠ dquote) ∨ bashReplacement c = [backslash, c] := by
  unfold bashReplacement
  by_cases h : c = dquote ∨ c = dollar ∨ c = backtick
  · right
    simp [h]
  · left
    rw [if_neg h]
    exact ⟨rfl, fun e => h (Or.inl e)⟩

theorem wrapperHead_ends_with_quote (policy : Str) (shellType : ShellType) :
    ∃ t, wrapperHead policy shellType = t ++ [dquote] := by
  cases shellType with
  | PowerShell => exact ⟨_, rfl⟩
  | CMD => exact ⟨_, rfl⟩
  | Bash => exact ⟨_, rfl⟩
  | Sh => exact ⟨_, rfl⟩

/-- What the builder does achieve: for every shell kind and execution policy,
and every command that contains no backslash, each double quote strictly inside
the wrapper quotes of the built invocation is escaped. -/
theorem buildShellCommand_quotes_escaped_of_no_backslash (policy command : Str)
    (shellType : ShellType) (hc : backslash ∉ command) :
    innerQuotesEscaped ((wrapperHead policy shellType).length - 1)
      (buildShellCommand policy command shellType) := by
  obtain ⟨t, ht⟩ := wrapperHead_ends_with_quote policy shellType
  have hstart : quotesEscapedAfter ((wrapperHead policy shellType).length - 1)
      (wrapperHead policy shellType) := by
    intro i hi hlo _
    omega
  have h0 : trailingBackslashes (wrapperHead policy shellType) = 0 := by
    rw [ht, trailingBackslashes_append_singleton]
    simp [dquote, backslash]
  by_cases hk : shellType = ShellType.Bash
  · subst hk
    have e : buildShellCommand policy command ShellType.Bash
        = (wrapperHead policy ShellType.Bash ++ command.flatMap bashReplacement) ++ [dquote] := by
      simp only [buildShellCommand, foldl_appendBashEscaped]
      rfl
    rw [e]
    exact innerQuotesEscaped_of_after _ _
      (quotesEscapedAfter_flatMap _ bashReplacement command bashReplacement_shape hc _ hstart h0)
  · rw [buildShellCommand_eq_head policy command shellType hk]
    exact innerQuotesEscaped_of_after _ _
      (quotesEscapedAfter_flatMap _ quoteReplacement command quoteReplacement_shape hc _ hstart
        h0)

/-- C3: for PowerShell, CMD and Sh the built invocation is the wrapper up to its
opening double quote, then the command with each double quote replaced by
backslash + double quote and every other character copied unchanged, then the
closing double quote; a command without a double quote stands verbatim between
the wrapper quotes. -/
theorem buildShellCommand_escapes_only_quotes (policy command : Str) (shellType : ShellType)
    (hk : shellType ≠ ShellType.Bash) :
    buildShellCommand policy command shellType
        = wrapperHead policy shellType ++ command.flatMap quoteReplacement ++ [dquote]
      ∧ (∀ c, c ≠ dquote → quoteReplacement c = [c])
      ∧ (dquote ∉ command →
          buildShellCommand policy command shellType
            = wrapperHead policy shellType ++ command ++ [dquote]) := by
  refine ⟨buildShellCommand_eq_head policy command shellType hk, ?_, ?_⟩
  · intro c hc
    simp [quoteReplacement, hc]
  · intro h
    rw [buildShellCommand_eq_head policy command shellType hk,
      flatMap_quoteReplacement_of_not_mem command h]

theorem buildShellCommand_escapes_only_quotes_witness :
    ShellType.Sh ≠ ShellType.Bash
      ∧ dquote ∉ "echo $HOME \\ \x60id\x60".toList
      ∧ buildShellCommand [] "echo $HOME \\ \x60id\x60".toList ShellType.Sh
          = "sh -c \"echo $HOME \\ \x60id\x60\"".toList
      ∧ buildShellCommand [] "say \"hi\"".toList ShellType.CMD
          = "cmd.exe /C \"say \\\"hi\\\"\"".toList :=
  ⟨by decide, by decide,
    ((buildShellCommand_escapes_only_quotes [] "echo $HOME \\ \x60id\x60".toList ShellType.Sh
      (by decide)).2.2 (by decide)).trans (by decide),
    ((buildShellCommand_escapes_only_quotes [] "say \"hi\"".toList ShellType.CMD
      (by decide)).1).trans (by decide)⟩

/-- C4: the PowerShell invocation is `powershell -NoProfile -ExecutionPolicy `,
then the execution policy when it is non-empty and `Bypass` when it is empty,
then ` -Command ` and the quoted command; the invocations for CMD, Bash and Sh
are the same whatever the execution policy is. -/
theorem buildShellCommand_executionPolicy (core : CoreImpl) (p command : Str) :
    (setExecutionPolicy core p).buildShellCommand command ShellType.PowerShell
        = "powershell -NoProfile -ExecutionPolicy ".toList
            ++ (if p = [] then "Bypass".toList else p)
            ++ " -Command ".toList
            ++ ([dquote] ++ command.flatMap quoteReplacement ++ [dquote])
      ∧ (∀ q : Str,
          (setExecutionPolicy core q).buildShellCommand command ShellType.CMD
            = (setExecutionPolicy core p).buildShellCommand command ShellType.CMD
          ∧ (setExecutionPolicy core q).buildShellCommand command ShellType.Bash
            = (setExecutionPolicy core p).buildShellCommand command ShellType.Bash
          ∧ (setExecutionPolicy core q).buildShellCommand command ShellType.Sh
            = (setExecutionPolicy core p).buildShellCommand command ShellType.Sh) := by
  refine ⟨?_, fun q => ⟨rfl, rfl, rfl⟩⟩
  show buildShellCommand p command ShellType.PowerShell = _
  rw [buildShellCommand_eq_head p command ShellType.PowerShell (by decide)]
  simp only [wrapperHead, List.append_assoc]

theorem wrapInt32_idem (x : Int) : wrapInt32 (wrapInt32 x) = wrapInt32 x := by
  unfold wrapInt32
  omega

theorem wrapInt32_succ_add (c : Int) (k : Nat) :
    wrapInt32 (wrapInt32 (c + 1) + (k : Int)) = wrapInt32 (c + ((k + 1 : Nat) : Int)) := by
  unfold wrapInt32
  push_cast
  omega

theorem submitAll_ids (subs : List Submission) (p : Process)
    (hc : wrapInt32 p.s_nextAsyncId = p.s_nextAsyncId) :
    (p.submitAll subs).1
      = (List.range subs.length).map (fun k : Nat => wrapInt32 (p.s_nextAsyncId + (k : Int))) := by
  induction subs generalizing p with
  | nil => rfl
  | cons s rest ih =>
    have hnext : (p.submit s).2.s_nextAsyncId = wrapInt32 (p.s_nextAsyncId + 1) := rfl
    have hid : (p.submit s).1 = p.s_nextAsyncId := rfl
    have step : (p.submitAll (s :: rest)).1 = (p.submit s).1 :: ((p.submit s).2.submitAll rest).1 :=
      rfl
    rw [step, ih (p.submit s).2 (by rw [hnext]; exact wrapInt32_idem _), hid, hnext,
      List.length_cons, List.range_succ_eq_map, List.map_cons, List.map_map]
    congr 1
    · simpa using hc.symm
    · apply List.map_congr_left
      intro k _
      exact wrapInt32_succ_add _ k

theorem submitAll_ids_fresh (subs : List Submission) :
    (Process.submitAll {} subs).1
      = (List.range subs.length).map (fun k : Nat => wrapInt32 (1 + (k : Int))) :=
  submitAll_ids subs {} (by decide)

/-- C5 as stated fails: in the sequence of 2147483648 submissions the
submission number 2147483647 gets the id 2147483647 and the next one the id
-2147483648, so the ids are not strictly increasing. -/
theorem submitAll_ids_wrap :
    (Process.submitAll {} (List.replicate 2147483648 ⟨0, [], ShellType.Sh, 0, none⟩)).1[2147483646]?
        = some 2147483647
      ∧ (Process.submitAll {}
          (List.replicate 2147483648 ⟨0, [], ShellType.Sh, 0, none⟩)).1[2147483647]?
        = some (-2147483648)
      ∧ ¬ List.Pairwise (fun a b : Int => a < b)
          (Process.submitAll {} (List.replicate 2147483648 ⟨0, [], ShellType.Sh, 0, none⟩)).1 := by
  have key : ∀ (n i : Nat) (s : Submission), i < n →
      (Process.submitAll {} (List.replicate n s)).1[i]? = some (wrapInt32 (1 + (i : Int))) := by
    intro n i s hi
    rw [submitAll_ids_fresh, List.length_replicate, List.getElem?_map, List.getElem?_range hi]
    rfl
  have h1 := key 2147483648 2147483646 ⟨0, [], ShellType.Sh, 0, none⟩ (by omega)
  have h2 := key 2147483648 2147483647 ⟨0, [], ShellType.Sh, 0, none⟩ (by omega)
  have v1 : wrapInt32 (1 + ((2147483646 : Nat) : Int)) = 2147483647 := by decide
  have v2 : wrapInt32 (1 + ((2147483647 : Nat) : Int)) = -2147483648 := by decide
  rw [v1] at h1
  rw [v2] at h2
  refine ⟨h1, h2, ?_⟩
  intro hp
  rw [List.pairwise_iff_getElem] at hp
  obtain ⟨hi, e1⟩ := List.getElem?_eq_some_iff.mp h1
  obtain ⟨hj, e2⟩ := List.getElem?_eq_some_iff.mp h2
  have := hp 2147483646 2147483647 hi hj (by omega)
  rw [e1, e2] at this
  omega

/-- C5, amended: for every sequence of at most 2147483647 submissions made in a
fresh process, on whatever instances, the ids returned are 1, 2, 3, ... in
submission order; they are strictly increasing and none is returned twice. -/
theorem submitAll_ids_increasing (subs : List Submission) (hn : subs.length ≤ 2147483647) :
    (Process.submitAll {} subs).1 = (List.range subs.length).map (fun k : Nat => (k : Int) + 1)
      ∧ List.Pairwise (fun a b : Int => a < b) (Process.submitAll {} subs).1
      ∧ (Process.submitAll {} subs).1.Nodup := by
  have e : (Process.submitAll {} subs).1
      = (List.range subs.length).map (fun k : Nat => (k : Int) + 1) := by
    rw [submitAll_ids_fresh]
    apply List.map_congr_left
    intro k hk
    have hk2 : k < subs.length := List.mem_range.mp hk
    unfold wrapInt32
    omega
  have hp : List.Pairwise (fun a b : Int => a < b) (Process.submitAll {} subs).1 := by
    rw [e]
    exact (List.pairwise_lt_range subs.length).map _ (fun a b hab => by omega)
  exact ⟨e, hp, hp.imp (fun h => ne_of_lt h)⟩

theorem submitAll_ids_increasing_witness :
    (Process.submitAll {}
      [⟨0, "ls".toList, ShellType.Sh, 1000, none⟩, ⟨1, "dir".toList, ShellType.CMD, 1000, some 0⟩,
        ⟨0, "pwd".toList, ShellType.Bash, 50, none⟩]).1 = [1, 2, 3] :=
  (submitAll_ids_increasing
    [⟨0, "ls".toList, ShellType.Sh, 1000, none⟩, ⟨1, "dir".toList, ShellType.CMD, 1000, some 0⟩,
      ⟨0, "pwd".toList, ShellType.Bash, 50, none⟩] (by decide)).1.trans (by decide)

theorem mapFind_eq_none_iff {α : Type} (m : List (Int × α)) (key : Int) :
    mapFind m key = none ↔ key ∉ m.map Prod.fst := by
  induction m with
  | nil => simp [mapFind]
  | cons e rest ih =>
    obtain ⟨k, v⟩ := e
    by_cases h : key = k
    · simp [mapFind, h]
    · simp [mapFind, h, ih]

theorem mapUpdate_cons {α : Type} (k : Int) (v : α) (rest : List (Int × α)) (key : Int)
    (f : α → α) :
    mapUpdate ((k, v) :: rest) key f
      = (if k = key then (k, f v) else (k, v)) :: mapUpdate rest key f := rfl

theorem mapFind_mapUpdate {α : Type} (m : List (Int × α)) (key : Int) (f : α → α) (k2 : Int) :
    mapFind (mapUpdate m key f) k2
      = if k2 = key then (mapFind m key).map f else mapFind m k2 := by
  induction m with
  | nil => simp [mapUpdate, mapFind]
  | cons e rest ih =>
    obtain ⟨k, v⟩ := e
    rw [mapUpdate_cons]
    by_cases hk : k = key
    · rw [if_pos hk]
      subst hk
      by_cases h2 : k2 = k
      · simp [mapFind, h2]
      · simp [mapFind, h2, ih]
    · rw [if_neg hk]
      have hne : key ≠ k := fun e => hk e.symm
      by_cases h2 : k2 = key
      · subst h2
        simp [mapFind, hne, ih]
      · by_cases h3 : k2 = k
        · simp [mapFind, h2, h3, hk]
        · simp [mapFind, h2, h3, ih]

theorem mapFind_mapAssign {α : Type} (m : List (Int × α)) (key : Int) (v : α) (k2 : Int) :
    mapFind (mapAssign m key v) k2 = if k2 = key then some v else mapFind m k2 := by
  induction m with
  | nil => simp [mapAssign, mapFind]
  | cons e rest ih =>
    obtain ⟨k, w⟩ := e
    unfold mapAssign
    by_cases h1 : key < k
    · simp [h1, mapFind]
    · by_cases h2 : key = k
      · by_cases h3 : k2 = k
        · simp [h2, h3, mapFind]
        · simp [h2, h3, mapFind]
      · by_cases h3 : k2 = k
        · have : k ≠ key := fun e => h2 e.symm
          simp [h1, h2, h3, mapFind, this]
        · simp [h1, h2, h3, mapFind, ih]

theorem asyncExecutionThread_state_ne_running (cmd : AsyncCommand) (r : CommandResult) :
    (asyncExecutionThread cmd r).1.state ≠ AsyncState.Running := by
  unfold asyncExecutionThread
  by_cases hc : cmd.cancelled = true
  · simp [hc]
  · by_cases ht : r.timedOut = true
    · simp [hc, ht]
    · by_cases he : r.exitCode = 0
      · simp [hc, ht, he]
      · simp [hc, ht, he]
theorem runningIsFresh_apply (st : CoreImpl × Int) (op : CoreOp) (h : RunningIsFresh st.1) :
    RunningIsFresh (op.apply st).1 := by
  intro k cmd hfind hrun
  cases op with
  | submit command shellType timeoutMs outputCallback =>
    simp only [CoreOp.apply, executeAsync, nextAsyncId, mapFind_mapAssign] at hfind
    by_cases hk : k = st.2
    · rw [if_pos hk] at hfind
      cases hfind
      exact ⟨rfl, rfl⟩
    · rw [if_neg hk] at hfind
      exact h k cmd hfind hrun
  | finish asyncId result =>
    simp only [CoreOp.apply, workerFinish] at hfind
    cases hm : mapFind st.1.m_asyncCommands asyncId with
    | none =>
      rw [hm] at hfind
      exact h k cmd hfind hrun
    | some c =>
      rw [hm] at hfind
      simp only [mapFind_mapUpdate, hm, Option.map_some'] at hfind
      by_cases hk : k = asyncId
      · rw [if_pos hk] at hfind
        cases hfind
        exact absurd hrun (asyncExecutionThread_state_ne_running c result)
      · rw [if_neg hk] at hfind
        exact h k cmd hfind hrun
  | terminate asyncId =>
    simp only [CoreOp.apply, terminateAsync] at hfind
    cases hm : mapFind st.1.m_asyncCommands asyncId with
    | none =>
      rw [hm] at hfind
      exact h k cmd hfind hrun
    | some c =>
      rw [hm] at hfind
      simp only [mapFind_mapUpdate, hm, Option.map_some'] at hfind
      by_cases hk : k = asyncId
      · rw [if_pos hk] at hfind
        cases hfind
        cases hrun
      · rw [if_neg hk] at hfind
        exact h k cmd hfind hrun

theorem runningIsFresh_foldl (ops : List CoreOp) (st : CoreImpl × Int)
    (h : RunningIsFresh st.1) : RunningIsFresh (ops.foldl CoreOp.apply st).1 := by
  induction ops generalizing st with
  | nil => exact h
  | cons op rest ih => exact ih _ (runningIsFresh_apply st op h)

theorem runningIsFresh_reach (ops : List CoreOp) : RunningIsFresh (reach ops).1 :=
  runningIsFresh_foldl ops _ (fun _ _ hfind _ => by cases hfind)

/-- C6: for an id that is not a key of the registry, `getAsyncStatus` returns
`Failed`, `getAsyncResult` returns false and leaves the out-parameter as it was,
the facade's `getAsyncResult` yields the zero-value result, `terminateAsync`
returns false, and each of the calls leaves the instance, with its registry and
records, unchanged. -/
theorem unknown_id_defaults (core : CoreImpl) (asyncId : Int)
    (h : asyncId ∉ core.m_asyncCommands.map Prod.fst) :
    getAsyncStatus core asyncId = (AsyncState.Failed, core)
      ∧ (∀ out : CommandResult,
          getAsyncResult core asyncId out = (ResultCall.returned false out, core))
      ∧ ZRun.getAsyncResult core asyncId
          = (some { exitCode := 0, output := [], error := [], executionTime := 0,
                    timedOut := false }, core)
      ∧ terminateAsync core asyncId = (false, core) := by
  have hf : mapFind core.m_asyncCommands asyncId = none := (mapFind_eq_none_iff _ _).mpr h
  refine ⟨?_, ?_, ?_, ?_⟩
  · simp [getAsyncStatus, hf]
  · intro out
    simp [getAsyncResult, hf]
  · simp [ZRun.getAsyncResult, getAsyncResult, hf]
  · simp [terminateAsync, hf]

theorem unknown_id_defaults_witness :
    (2 : Int) ∉ (executeAsync {} 1 "ls".toList ShellType.Sh 1000 none).2.1.m_asyncCommands.map
        Prod.fst
      ∧ getAsyncStatus (executeAsync {} 1 "ls".toList ShellType.Sh 1000 none).2.1 2
          = (AsyncState.Failed, (executeAsync {} 1 "ls".toList ShellType.Sh 1000 none).2.1)
      ∧ terminateAsync (executeAsync {} 1 "ls".toList ShellType.Sh 1000 none).2.1 2
          = (false, (executeAsync {} 1 "ls".toList ShellType.Sh 1000 none).2.1) :=
  ⟨by decide,
    (unknown_id_defaults (executeAsync {} 1 "ls".toList ShellType.Sh 1000 none).2.1 2
      (by decide)).1,
    (unknown_id_defaults (executeAsync {} 1 "ls".toList ShellType.Sh 1000 none).2.1 2
      (by decide)).2.2.2⟩

/-- C7: when the record's cancellation flag is not set and the engine returned
`r`, the state after the worker is `TimedOut` exactly when `r.timedOut` holds;
when it does not hold the state is `Completed` exactly when `r.exitCode = 0` and
`Failed` otherwise; the state is never `Running` or `Cancelled`, and the stored
result is `r`. -/
theorem asyncExecutionThread_state (cmd : AsyncCommand) (r : CommandResult)
    (hc : cmd.cancelled = false) :
    ((asyncExecutionThread cmd r).1.state = AsyncState.TimedOut ↔ r.timedOut = true)
      ∧ (r.timedOut = false →
          ((asyncExecutionThread cmd r).1.state = AsyncState.Completed ↔ r.exitCode = 0))
      ∧ (r.timedOut = false → r.exitCode ≠ 0 →
          (asyncExecutionThread cmd r).1.state = AsyncState.Failed)
      ∧ (asyncExecutionThread cmd r).1.state ≠ AsyncState.Running
      ∧ (asyncExecutionThread cmd r).1.state ≠ AsyncState.Cancelled
      ∧ (asyncExecutionThread cmd r).1.result = r := by
  unfold asyncExecutionThread
  by_cases ht : r.timedOut = true
  · simp [hc, ht]
  · by_cases he : r.exitCode = 0
    · simp [hc, ht, he]
    · simp [hc, ht, he]

theorem asyncExecutionThread_state_witness :
    (asyncExecutionThread
        { id := 1, command := "exit 7".toList, shellType := ShellType.Sh, timeoutMs := 1000,
          outputCallback := none } { exitCode := 7 }).1.state = AsyncState.Failed :=
  (asyncExecutionThread_state
    { id := 1, command := "exit 7".toList, shellType := ShellType.Sh, timeoutMs := 1000,
      outputCallback := none } { exitCode := 7 } rfl).2.2.1 rfl (by decide)

/-- C8, evaluated on the code: a command is submitted on a fresh instance (id
1), its worker finishes with exit code 0 and the record is `Completed`; a call
of `terminateAsync(1)` then returns true and the record is `Cancelled`, with the
real result still stored: a second change of the state. -/
theorem terminateAsync_overwrites_completed :
    (getAsyncStatus
        (workerFinish (executeAsync {} 1 "true".toList ShellType.Sh 1000 none).2.1 1
          { exitCode := 0, output := "ok".toList }).1 1).1 = AsyncState.Completed
      ∧ (terminateAsync
          (workerFinish (executeAsync {} 1 "true".toList ShellType.Sh 1000 none).2.1 1
            { exitCode := 0, output := "ok".toList }).1 1).1 = true
      ∧ (getAsyncStatus
          (terminateAsync
            (workerFinish (executeAsync {} 1 "true".toList ShellType.Sh 1000 none).2.1 1
              { exitCode := 0, output := "ok".toList }).1 1).2 1).1 = AsyncState.Cancelled
      ∧ (getAsyncResult
          (terminateAsync
            (workerFinish (executeAsync {} 1 "true".toList ShellType.Sh 1000 none).2.1 1
              { exitCode := 0, output := "ok".toList }).1 1).2 1 {}).1
          = ResultCall.returned true { exitCode := 0, output := "ok".toList } := by
  decide

/-- C9: for a record that is `Running` in an instance reached by any sequence
of submissions, worker completions and terminations, `terminateAsync` returns
true and the status is `Cancelled` right after; whatever result the worker then
gets from the engine, after the worker the status is still `Cancelled`, the
stored result is still the zero-value result, no callback was invoked, and
`getAsyncResult` returns true with the zero-value result. -/
theorem terminateAsync_running_discards_result (ops : List CoreOp) (asyncId : Int)
    (cmd : AsyncCommand)
    (hfind : mapFind (reach ops).1.m_asyncCommands asyncId = some cmd)
    (hrun : cmd.state = AsyncState.Running) :
    (terminateAsync (reach ops).1 asyncId).1 = true
      ∧ (getAsyncStatus (terminateAsync (reach ops).1 asyncId).2 asyncId).1
          = AsyncState.Cancelled
      ∧ ∀ r : CommandResult,
          (getAsyncStatus
              (workerFinish (terminateAsync (reach ops).1 asyncId).2 asyncId r).1 asyncId).1
            = AsyncState.Cancelled
          ∧ (mapFind (workerFinish (terminateAsync (reach ops).1 asyncId).2 asyncId
                r).1.m_asyncCommands asyncId).map (fun c => c.result)
              = some { exitCode := 0, output := [], error := [], executionTime := 0,
                       timedOut := false }
          ∧ (workerFinish (terminateAsync (reach ops).1 asyncId).2 asyncId r).2 = []
          ∧ (∀ out : CommandResult,
              (getAsyncResult
                  (workerFinish (terminateAsync (reach ops).1 asyncId).2 asyncId r).1
                  asyncId out).1
                = ResultCall.returned true {})
          ∧ (ZRun.getAsyncResult
                (workerFinish (terminateAsync (reach ops).1 asyncId).2 asyncId r).1 asyncId).1
              = some {} := by
  obtain ⟨hres, -⟩ := runningIsFresh_reach ops asyncId cmd hfind hrun
  have hf1 : mapFind (terminateAsync (reach ops).1 asyncId).2.m_asyncCommands asyncId
      = some { cmd with cancelled := true, state := AsyncState.Cancelled } := by
    simp [terminateAsync, hfind, mapFind_mapUpdate]
  refine ⟨by simp [terminateAsync, hfind], ?_, ?_⟩
  · simp [getAsyncStatus, hf1]
  · intro r
    have hf2 : mapFind
        (workerFinish (terminateAsync (reach ops).1 asyncId).2 asyncId r).1.m_asyncCommands
          asyncId
        = some { cmd with cancelled := true, state := AsyncState.Cancelled } := by
      simp [workerFinish, hf1, mapFind_mapUpdate, asyncExecutionThread]
    have hcalls : (workerFinish (terminateAsync (reach ops).1 asyncId).2 asyncId r).2 = [] := by
      simp [workerFinish, hf1, asyncExecutionThread]
    refine ⟨?_, ?_, hcalls, ?_, ?_⟩
    · simp [getAsyncStatus, hf2]
    · simp [hf2, hres]
    · intro out
      simp [getAsyncResult, hf2, hres]
    · simp [ZRun.getAsyncResult, getAsyncResult, hf2, hres]

theorem terminateAsync_running_discards_result_witness :
    mapFind (reach [CoreOp.submit "sleep 60".toList ShellType.Sh 90000 (some 0)]).1.m_asyncCommands
        1
      = some { id := 1, command := "sleep 60".toList, shellType := ShellType.Sh,
               timeoutMs := 90000, outputCallback := some 0 }
    ∧ (getAsyncResult
        (workerFinish
          (terminateAsync
            (reach [CoreOp.submit "sleep 60".toList ShellType.Sh 90000 (some 0)]).1 1).2 1
          { exitCode := 0, output := "done".toList }).1 1 {}).1
      = ResultCall.returned true {} :=
  ⟨by decide,
    ((terminateAsync_running_discards_result
      [CoreOp.submit "sleep 60".toList ShellType.Sh 90000 (some 0)] 1
      { id := 1, command := "sleep 60".toList, shellType := ShellType.Sh,
        timeoutMs := 90000, outputCallback := some 0 }
      (by decide) rfl).2.2 { exitCode := 0, output := "done".toList }).2.2.2.1 {}⟩

/-- C10: the callback invocations the worker makes are none when the record has
no callback or is cancelled, and otherwise one call with the whole output and
`isError = false` when the output is non-empty, followed by one call with the
whole error text and `isError = true` when it is non-empty; so there is at most
one call per stream and none with an empty text. -/
theorem asyncExecutionThread_calls (cmd : AsyncCommand) (r : CommandResult) :
    (asyncExecutionThread cmd r).2
        = (if cmd.outputCallback = none ∨ cmd.cancelled = true then []
           else
            (if r.output ≠ [] then [{ output := r.output, isError := false }] else [])
            ++ (if r.error ≠ [] then [{ output := r.error, isError := true }] else []))
      ∧ ((asyncExecutionThread cmd r).2.filter (fun c => c.isError = false)).length ≤ 1
      ∧ ((asyncExecutionThread cmd r).2.filter (fun c => c.isError = true)).length ≤ 1
      ∧ ∀ c ∈ (asyncExecutionThread cmd r).2, c.output ≠ [] := by
  obtain ⟨id, command, shellType, timeoutMs, outputCallback, state, result, cancelled⟩ := cmd
  obtain ⟨exitCode, output, error, executionTime, timedOut⟩ := r
  cases cancelled <;> cases outputCallback <;> cases output <;> cases error <;>
    simp [asyncExecutionThread]

theorem escapedChar_backslash (shellType : ShellType) :
    escapedChar shellType backslash = false := by
  cases shellType <;> decide

theorem buildShellCommand_eq_escaped (policy command : Str) (shellType : ShellType) :
    buildShellCommand policy command shellType
      = wrapperHead policy shellType
          ++ command.flatMap
              (fun c => if escapedChar shellType c = true then [backslash, c] else [c])
          ++ [dquote] := by
  by_cases hk : shellType = ShellType.Bash
  · subst hk
    have e : (fun c => if escapedChar ShellType.Bash c = true then [backslash, c] else [c])
        = bashReplacement := by
      funext c
      simp [escapedChar, bashReplacement, or_assoc]
    rw [e]
    simp only [buildShellCommand, foldl_appendBashEscaped]
    rfl
  · have e : (fun c => if escapedChar shellType c = true then [backslash, c] else [c])
        = quoteReplacement := by
      funext c
      cases shellType with
      | Bash => exact absurd rfl hk
      | PowerShell => by_cases h : c = dquote <;> simp [escapedChar, quoteReplacement, h]
      | CMD => by_cases h : c = dquote <;> simp [escapedChar, quoteReplacement, h]
      | Sh => by_cases h : c = dquote <;> simp [escapedChar, quoteReplacement, h]
    rw [e]
    exact buildShellCommand_eq_head policy command shellType hk

theorem flatMap_escape_head (shellType : ShellType) (command : Str) (d : Char) (rest : Str)
    (h : command.flatMap
        (fun c => if escapedChar shellType c = true then [backslash, c] else [c]) = d :: rest) :
    escapedChar shellType d = false := by
  cases command with
  | nil => simp at h
  | cons c cs =>
    rw [List.flatMap_cons] at h
    by_cases hc : escapedChar shellType c = true
    · rw [if_pos hc] at h
      have hd : backslash = d := by
        have := congrArg List.head? h
        simpa using this
      rw [← hd]
      exact escapedChar_backslash shellType
    · rw [if_neg hc] at h
      have hd : c = d := by
        have := congrArg List.head? h
        simpa using this
      rw [← hd]
      simpa using hc

theorem unescape_flatMap (shellType : ShellType) (command : Str) :
    unescape shellType
        (command.flatMap
          (fun c => if escapedChar shellType c = true then [backslash, c] else [c]))
      = command := by
  induction command with
  | nil => rfl
  | cons c cs ih =>
    rw [List.flatMap_cons]
    by_cases hc : escapedChar shellType c = true
    · rw [if_pos hc]
      show unescape shellType (backslash :: c :: _) = _
      rw [unescape, if_pos ⟨rfl, hc⟩]
      exact congrArg (List.cons c) ih
    · rw [if_neg hc]
      cases he : cs.flatMap
          (fun c => if escapedChar shellType c = true then [backslash, c] else [c]) with
      | nil =>
        rw [he] at ih
        have hcs : cs = [] := by
          rw [← ih]
          rfl
        rw [hcs]
        rfl
      | cons d rest =>
        have hd := flatMap_escape_head shellType cs d rest he
        show unescape shellType (c :: d :: rest) = _
        rw [unescape, if_neg (by simp [hd]), ← he, ih]

theorem decodeCommand_buildShellCommand (policy command : Str) (shellType : ShellType) :
    decodeCommand policy shellType (buildShellCommand policy command shellType) = command := by
  unfold decodeCommand
  rw [buildShellCommand_eq_escaped, List.append_assoc, List.drop_left, List.dropLast_concat]
  exact unescape_flatMap shellType command

/-- C17: for every execution policy and shell kind, decoding the built
invocation (wrapper prefix and closing quote stripped, inserted backslashes
removed) gives back the command, and so two different commands never yield the
same invocation. -/
theorem buildShellCommand_injective (policy : Str) (shellType : ShellType) :
    (∀ command : Str,
        decodeCommand policy shellType (buildShellCommand policy command shellType) = command)
      ∧ Function.Injective (fun command : Str => buildShellCommand policy command shellType) := by
  refine ⟨fun command => decodeCommand_buildShellCommand policy command shellType, ?_⟩
  intro a b h
  have := congrArg (decodeCommand policy shellType) h
  simpa [decodeCommand_buildShellCommand] using this

theorem mapFind_apply_of_leaves (asyncId : Int) (st : CoreImpl × Int) (op : CoreOp)
    (h : op.leaves asyncId st) :
    mapFind (op.apply st).1.m_asyncCommands asyncId = mapFind st.1.m_asyncCommands asyncId := by
  cases op with
  | submit command shellType timeoutMs outputCallback =>
    have hne : asyncId ≠ st.2 := fun e => h e.symm
    simp [CoreOp.apply, executeAsync, nextAsyncId, mapFind_mapAssign, hne]
  | finish other result =>
    have hne : asyncId ≠ other := fun e => h e.symm
    simp only [CoreOp.apply, workerFinish]
    cases hm : mapFind st.1.m_asyncCommands other with
    | none => rfl
    | some c => simp [mapFind_mapUpdate, hne]
  | terminate other =>
    have hne : asyncId ≠ other := fun e => h e.symm
    simp only [CoreOp.apply, terminateAsync]
    cases hm : mapFind st.1.m_asyncCommands other with
    | none => rfl
    | some c => simp [mapFind_mapUpdate, hne]

theorem mapFind_foldl_of_leavesAll (asyncId : Int) (ops : List CoreOp) (st : CoreImpl × Int)
    (h : leavesAll asyncId st ops) :
    mapFind (ops.foldl CoreOp.apply st).1.m_asyncCommands asyncId
      = mapFind st.1.m_asyncCommands asyncId := by
  induction ops generalizing st with
  | nil => rfl
  | cons op rest ih =>
    obtain ⟨h1, h2⟩ := h
    rw [List.foldl_cons, ih _ h2, mapFind_apply_of_leaves asyncId st op h1]
/-- C11: a command is submitted, then operations that do not act on its record
are applied (no cancellation of it), then its worker runs, then again such
operations. The worker calls the engine with the submitted command, shell kind
and timeout; before the worker's completion `getAsyncResult` waits; after it
`getAsyncResult` returns true with exactly the engine's result for that call. -/
theorem getAsyncResult_eq_executeSync
    (executeSync : Str → ShellType → Int → CommandResult) (core : CoreImpl)
    (s_nextAsyncId : Int) (command : Str) (shellType : ShellType) (timeoutMs : Int)
    (outputCallback : OutputCallback) (before after : List CoreOp)
    (st1 st2 st3 : CoreImpl × Int) (asyncId : Int)
    (hid : asyncId = (executeAsync core s_nextAsyncId command shellType timeoutMs outputCallback).1)
    (h1 : st1 = before.foldl CoreOp.apply
      (executeAsync core s_nextAsyncId command shellType timeoutMs outputCallback).2)
    (hb : leavesAll asyncId
      (executeAsync core s_nextAsyncId command shellType timeoutMs outputCallback).2 before)
    (h2 : st2 = ((workerRun executeSync st1.1 asyncId).1, st1.2))
    (h3 : st3 = after.foldl CoreOp.apply st2)
    (ha : leavesAll asyncId st2 after) :
    (mapFind st1.1.m_asyncCommands asyncId).map (fun c => (c.command, c.shellType, c.timeoutMs))
        = some (command, shellType, timeoutMs)
      ∧ (∀ out : CommandResult, (getAsyncResult st1.1 asyncId out).1 = ResultCall.waiting)
      ∧ (∀ out : CommandResult,
          (getAsyncResult st3.1 asyncId out).1
            = ResultCall.returned true (executeSync command shellType timeoutMs))
      ∧ (ZRun.getAsyncResult st3.1 asyncId).1 = some (executeSync command shellType timeoutMs) := by
  have hid2 : asyncId = s_nextAsyncId := hid
  have hf0 : mapFind
      (executeAsync core s_nextAsyncId command shellType timeoutMs
        outputCallback).2.1.m_asyncCommands asyncId
      = some { id := asyncId, command := command, shellType := shellType,
               timeoutMs := timeoutMs, outputCallback := outputCallback } := by
    simp [executeAsync, nextAsyncId, mapFind_mapAssign, hid2]
  have hf1 : mapFind st1.1.m_asyncCommands asyncId
      = some { id := asyncId, command := command, shellType := shellType,
               timeoutMs := timeoutMs, outputCallback := outputCallback } := by
    rw [h1, mapFind_foldl_of_leavesAll asyncId before _ hb, hf0]
  have hf2 : mapFind st2.1.m_asyncCommands asyncId
      = some (asyncExecutionThread
          { id := asyncId, command := command, shellType := shellType,
            timeoutMs := timeoutMs, outputCallback := outputCallback }
          (executeSync command shellType timeoutMs)).1 := by
    rw [h2]
    simp [workerRun, workerFinish, hf1, mapFind_mapUpdate]
  have hf3 : mapFind st3.1.m_asyncCommands asyncId
      = some (asyncExecutionThread
          { id := asyncId, command := command, shellType := shellType,
            timeoutMs := timeoutMs, outputCallback := outputCallback }
          (executeSync command shellType timeoutMs)).1 := by
    rw [h3, mapFind_foldl_of_leavesAll asyncId after _ ha, hf2]
  have hne := asyncExecutionThread_state_ne_running
    { id := asyncId, command := command, shellType := shellType,
      timeoutMs := timeoutMs, outputCallback := outputCallback }
    (executeSync command shellType timeoutMs)
  have hres : (asyncExecutionThread
      { id := asyncId, command := command, shellType := shellType,
        timeoutMs := timeoutMs, outputCallback := outputCallback }
      (executeSync command shellType timeoutMs)).1.result
      = executeSync command shellType timeoutMs := by
    simp [asyncExecutionThread]
  refine ⟨by simp [hf1], ?_, ?_, ?_⟩
  · intro out
    simp [getAsyncResult, hf1]
  · intro out
    simp [getAsyncResult, hf3, hne, hres]
  · simp [ZRun.getAsyncResult, getAsyncResult, hf3, hne, hres]

theorem getAsyncResult_eq_executeSync_witness :
    (getAsyncResult
        (List.foldl CoreOp.apply
          ((workerRun (fun command _ timeoutMs => { exitCode := timeoutMs, output := command })
              (List.foldl CoreOp.apply (executeAsync {} 1 "ls".toList ShellType.Sh 500 none).2
                [CoreOp.submit "pwd".toList ShellType.Bash 100 none, CoreOp.terminate 2]).1 1).1,
            (List.foldl CoreOp.apply (executeAsync {} 1 "ls".toList ShellType.Sh 500 none).2
                [CoreOp.submit "pwd".toList ShellType.Bash 100 none, CoreOp.terminate 2]).2)
          [CoreOp.finish 2 { exitCode := 9 }]).1 1 {}).1
      = ResultCall.returned true { exitCode := 500, output := "ls".toList } :=
  (getAsyncResult_eq_executeSync
    (fun command _ timeoutMs => { exitCode := timeoutMs, output := command }) {} 1
    "ls".toList ShellType.Sh 500 none
    [CoreOp.submit "pwd".toList ShellType.Bash 100 none, CoreOp.terminate 2]
    [CoreOp.finish 2 { exitCode := 9 }] _ _ _ 1 rfl rfl (by decide) rfl rfl
    (by decide)).2.2.1 {}

/-- C12 as stated fails: with a valid instance and the empty command string,
`zrun_execute_sync` runs the engine on the empty command and returns what the
engine returns; for an engine result with exit code 0 the C result has
`exit_code = 0` and an empty error text. -/
theorem zrun_execute_sync_empty_command_runs_engine :
    zrun_execute_sync (fun _ _ _ _ => EngineOutcome.returns {}) (some {}) (some []) 3 1000
        = ({ exit_code := 0, output := [], error := [], execution_time := 0, timed_out := 0 },
            [([], ShellType.Sh, 1000)])
      ∧ ¬ ((zrun_execute_sync (fun _ _ _ _ => EngineOutcome.returns {}) (some {}) (some []) 3
              1000).1.exit_code < 0
            ∧ (zrun_execute_sync (fun _ _ _ _ => EngineOutcome.returns {}) (some {}) (some []) 3
              1000).2 = []) := by
  decide

/-- C12, amended: a null instance or a null command is rejected without running
the engine, with `exit_code = -1`, the error text `Invalid arguments`, empty
output, `execution_time = 0` and `timed_out = 0`. -/
theorem zrun_execute_sync_rejects_null
    (executeSync : CoreImpl → Str → ShellType → Int → EngineOutcome)
    (inst : Option CoreImpl) (command : Option Str) (shell_type timeout_ms : Int)
    (h : inst = none ∨ command = none) :
    (zrun_execute_sync executeSync inst command shell_type timeout_ms).2 = []
      ∧ (zrun_execute_sync executeSync inst command shell_type timeout_ms).1
          = { exit_code := -1, output := [], error := "Invalid arguments".toList,
              execution_time := 0, timed_out := 0 }
      ∧ (zrun_execute_sync executeSync inst command shell_type timeout_ms).1.exit_code < 0
      ∧ (zrun_execute_sync executeSync inst command shell_type timeout_ms).1.error ≠ [] := by
  have e : zrun_execute_sync executeSync inst command shell_type timeout_ms
      = ({ exit_code := -1, output := [], error := "Invalid arguments".toList,
           execution_time := 0, timed_out := 0 }, []) := by
    rcases h with h | h
    · subst h
      cases command <;> rfl
    · subst h
      cases inst <;> rfl
  rw [e]
  exact ⟨rfl, rfl, by decide, by decide⟩

theorem zrun_execute_sync_rejects_null_witness :
    (zrun_execute_sync (fun _ _ _ _ => EngineOutcome.returns {}) none (some "ls".toList) 3
        1000).1.exit_code = -1
      ∧ (zrun_execute_sync (fun _ _ _ _ => EngineOutcome.returns {}) (some {}) none 3 1000).2
          = [] :=
  ⟨congrArg zrun_command_result.exit_code
      (zrun_execute_sync_rejects_null (fun _ _ _ _ => EngineOutcome.returns {}) none
        (some "ls".toList) 3 1000 (Or.inl rfl)).2.1,
    (zrun_execute_sync_rejects_null (fun _ _ _ _ => EngineOutcome.returns {}) (some {}) none 3
      1000 (Or.inr rfl)).1⟩

theorem zrun_execute_sync_runs_engine
    (executeSync : CoreImpl → Str → ShellType → Int → EngineOutcome)
    (zrun : CoreImpl) (command : Str) (shell_type timeout_ms : Int) :
    (zrun_execute_sync executeSync (some zrun) (some command) shell_type timeout_ms).2
        = [(command, toCppShellType shell_type, timeout_ms)]
      ∧ ∀ result : CommandResult,
          executeSync zrun command (toCppShellType shell_type) timeout_ms
              = EngineOutcome.returns result →
            (zrun_execute_sync executeSync (some zrun) (some command) shell_type timeout_ms).1
              = toCResult result := by
  constructor
  · simp only [zrun_execute_sync, toStdString]
    cases executeSync zrun command (toCppShellType shell_type) timeout_ms <;> rfl
  · intro result h
    simp only [zrun_execute_sync, toStdString, h]

theorem pollLoop_killed (timeoutTime : Int) (polls : List PollStep) (result : CommandResult)
    (exit : LoopExit) (h : pollLoop timeoutTime polls result = some exit) :
    (exit.killed = true →
        exit.result.timedOut = true ∧ exit.result.exitCode = result.exitCode
          ∧ exit.processDone = false)
      ∧ (exit.killed = false → exit.result.timedOut = result.timedOut) := by
  induction polls generalizing result with
  | nil => simp [pollLoop] at h
  | cons step rest ih =>
    unfold pollLoop at h
    by_cases hlate : step.now > timeoutTime
    · rw [if_pos hlate] at h
      cases h
      simp
    · rw [if_neg hlate] at h
      cases hw : step.wait with
      | reaped status =>
        cases status with
        | exited code =>
          simp only [hw] at h
          cases h
          simp
        | signaled =>
          simp only [hw] at h
          cases h
          simp
      | running =>
        simp only [hw] at h
        have := ih _ h
        exact this
      | failed echild message =>
        cases echild with
        | true =>
          simp only [hw] at h
          have := ih _ h
          exact this
        | false =>
          simp only [hw] at h
          cases h
          simp

theorem pollLoop_isSome_of_late (timeoutTime : Int) (polls : List PollStep)
    (result : CommandResult) (h : ∃ step ∈ polls, timeoutTime < step.now) :
    ∃ exit, pollLoop timeoutTime polls result = some exit := by
  induction polls generalizing result with
  | nil =>
    obtain ⟨step, hmem, _⟩ := h
    cases hmem
  | cons step rest ih =>
    unfold pollLoop
    by_cases hlate : step.now > timeoutTime
    · rw [if_pos hlate]
      exact ⟨_, rfl⟩
    · rw [if_neg hlate]
      have hrest : ∃ s ∈ rest, timeoutTime < s.now := by
        obtain ⟨s, hmem, hs⟩ := h
        rcases List.mem_cons.mp hmem with e | hm
        · subst e
          exact absurd hs hlate
        · exact ⟨s, hm, hs⟩
      cases hw : step.wait with
      | reaped status =>
        cases status with
        | exited code => exact ⟨_, rfl⟩
        | signaled => exact ⟨_, rfl⟩
      | running => exact ih _ hrest
      | failed echild message =>
        cases echild with
        | true => exact ih _ hrest
        | false => exact ⟨_, rfl⟩

/-- C13 as stated fails: with a timeout of 50 ms and a child still running at
the clock readings 0, 20, 40 and 60 ms, the engine sends `SIGTERM` at 60 ms and
returns `timedOut = true` with `exitCode = 0`, which is not negative. -/
theorem executeSyncUnix_timeout_exitCode_zero :
    ∃ ret, executeSyncUnix {}
        { startTime := 0, stdoutPipe := some (3, 4), stderrPipe := some (5, 6),
          pipeError := [], pid := some 4242, forkError := [],
          polls := [{ now := 0, wait := WaitPoll.running, out := "a".toList, err := [] },
                    { now := 20000000, wait := WaitPoll.running, out := [], err := [] },
                    { now := 40000000, wait := WaitPoll.running, out := "b".toList, err := [] },
                    { now := 60000000, wait := WaitPoll.running, out := [], err := [] }],
          finalOut := [], finalErr := [], finalWait := true, endTime := 61000000 }
        [0, 1, 2] "sleep 5".toList ShellType.Sh 50 = some ret
      ∧ ret.killed = true
      ∧ ret.result = { exitCode := 0, output := "ab".toList, error := [], executionTime := 61,
                       timedOut := true }
      ∧ ¬ ret.result.exitCode < 0 :=
  ⟨{ result := { exitCode := 0, output := "ab".toList, error := [], executionTime := 61,
                 timedOut := true },
     openFds := [0, 1, 2], spawned := some "sh -c \"sleep 5\"".toList,
     child := ChildFate.reaped, killed := true },
    by decide, rfl, rfl, by decide⟩

/-- C13, amended: whenever the Unix engine returns after sending `SIGTERM` to
the child because a clock reading passed the deadline, the result has
`timedOut = true` and `exitCode = 0` (the default value: no exit code is stored
on this path); `timedOut` is set on no other path; and the engine does return
as soon as one clock reading of the poll loop lies past the deadline. -/
theorem executeSyncUnix_timeout (core : CoreImpl) (env : UnixEnv) (openFds : List Nat)
    (command : Str) (shellType : ShellType) (timeoutMs : Int) :
    (∀ ret, executeSyncUnix core env openFds command shellType timeoutMs = some ret →
        ret.killed = true → ret.result.timedOut = true ∧ ret.result.exitCode = 0)
      ∧ (∀ ret, executeSyncUnix core env openFds command shellType timeoutMs = some ret →
          ret.result.timedOut = true → ret.killed = true)
      ∧ ((∃ step ∈ env.polls, env.startTime + timeoutMs * 1000000 < step.now) →
          ∃ ret, executeSyncUnix core env openFds command shellType timeoutMs = some ret) := by
  refine ⟨?_, ?_, ?_⟩
  · intro ret h hk
    unfold executeSyncUnix at h
    cases h1 : env.stdoutPipe with
    | none =>
      simp only [h1] at h
      cases h
      simp at hk
    | some p1 =>
      cases h2 : env.stderrPipe with
      | none =>
        simp only [h1, h2] at h
        cases h
        simp at hk
      | some p2 =>
        cases h3 : env.pid with
        | none =>
          simp only [h1, h2, h3] at h
          cases h
          simp at hk
        | some pid =>
          simp only [h1, h2, h3] at h
          cases hl : pollLoop (env.startTime + timeoutMs * 1000000) env.polls {} with
          | none => simp [hl] at h
          | some exit =>
            simp only [hl] at h
            cases h
            have := (pollLoop_killed _ _ _ _ hl).1 hk
            exact ⟨this.1, this.2.1⟩
  · intro ret h ht
    unfold executeSyncUnix at h
    cases h1 : env.stdoutPipe with
    | none =>
      simp only [h1] at h
      cases h
      simp at ht
    | some p1 =>
      cases h2 : env.stderrPipe with
      | none =>
        simp only [h1, h2] at h
        cases h
        simp at ht
      | some p2 =>
        cases h3 : env.pid with
        | none =>
          simp only [h1, h2, h3] at h
          cases h
          simp at ht
        | some pid =>
          simp only [h1, h2, h3] at h
          cases hl : pollLoop (env.startTime + timeoutMs * 1000000) env.polls {} with
          | none => simp [hl] at h
          | some exit =>
            simp only [hl] at h
            cases h
            cases hk : exit.killed with
            | true => rfl
            | false =>
              have := (pollLoop_killed _ _ _ _ hl).2 hk
              simp only at ht
              rw [this] at ht
              cases ht
  · intro hlate
    unfold executeSyncUnix
    cases h1 : env.stdoutPipe with
    | none => exact ⟨_, rfl⟩
    | some p1 =>
      cases h2 : env.stderrPipe with
      | none => exact ⟨_, rfl⟩
      | some p2 =>
        cases h3 : env.pid with
        | none => exact ⟨_, rfl⟩
        | some pid =>
          obtain ⟨exit, hl⟩ := pollLoop_isSome_of_late _ env.polls {} hlate
          simp only [hl]
          exact ⟨_, rfl⟩
theorem executeSyncUnix_timeout_witness :
    (∃ step ∈ [({ now := 150, wait := WaitPoll.running, out := [], err := [] } : PollStep),
               { now := 12000000, wait := WaitPoll.running, out := [], err := [] }],
        (100 : Int) + 10 * 1000000 < step.now)
      ∧ ∃ ret, executeSyncUnix {}
          { startTime := 100, stdoutPipe := some (7, 8), stderrPipe := some (9, 10),
            pipeError := [], pid := some 77, forkError := [],
            polls := [{ now := 150, wait := WaitPoll.running, out := [], err := [] },
                      { now := 12000000, wait := WaitPoll.running, out := [], err := [] }],
            finalOut := "late".toList, finalErr := [], finalWait := true, endTime := 12500000 }
          [0, 1, 2] "cat".toList ShellType.Bash 10 = some ret
        ∧ ret.killed = true ∧ ret.result.timedOut = true ∧ ret.result.exitCode = 0 :=
  ⟨⟨{ now := 12000000, wait := WaitPoll.running, out := [], err := [] }, by decide, by decide⟩,
    { result := { exitCode := 0, output := "late".toList, error := [], executionTime := 12,
                  timedOut := true },
      openFds := [0, 1, 2], spawned := some "bash -c \"cat\"".toList,
      child := ChildFate.reaped, killed := true },
    by decide, rfl,
    (executeSyncUnix_timeout {}
      { startTime := 100, stdoutPipe := some (7, 8), stderrPipe := some (9, 10),
        pipeError := [], pid := some 77, forkError := [],
        polls := [{ now := 150, wait := WaitPoll.running, out := [], err := [] },
                  { now := 12000000, wait := WaitPoll.running, out := [], err := [] }],
        finalOut := "late".toList, finalErr := [], finalWait := true, endTime := 12500000 }
      [0, 1, 2] "cat".toList ShellType.Bash 10).1
      { result := { exitCode := 0, output := "late".toList, error := [], executionTime := 12,
                    timedOut := true },
        openFds := [0, 1, 2], spawned := some "bash -c \"cat\"".toList,
        child := ChildFate.reaped, killed := true }
      (by decide) rfl⟩

/-- C14, evaluated on the code: timeout 5 ms, the child exits normally with
status 7 after 3 ms; the loop's first iteration runs at 0 ms (child running),
sleeps, and its second iteration runs at 10 ms. The clock is checked before
`waitpid`, so the engine sends `SIGTERM` and returns `timedOut = true` and
`exitCode = 0` although the child had exited with 7 before the deadline. -/
theorem executeSyncUnix_exit_before_deadline_timed_out :
    pollsOfExit 3000000 7 [0, 10000000]
        = [{ now := 0, wait := WaitPoll.running, out := [], err := [] },
           { now := 10000000, wait := WaitPoll.reaped (WaitStatus.exited 7), out := [],
             err := [] }]
      ∧ executeSyncUnix {}
          { startTime := 0, stdoutPipe := some (3, 4), stderrPipe := some (5, 6),
            pipeError := [], pid := some 4242, forkError := [],
            polls := pollsOfExit 3000000 7 [0, 10000000],
            finalOut := [], finalErr := [], finalWait := true, endTime := 10500000 }
          [0, 1, 2] "exit 7".toList ShellType.Sh 5
        = some { result := { exitCode := 0, output := [], error := [], executionTime := 10,
                             timedOut := true },
                 openFds := [0, 1, 2], spawned := some "sh -c \"exit 7\"".toList,
                 child := ChildFate.reaped, killed := true } := by
  decide

theorem pollLoop_exit_observed (timeoutTime : Int) (pre post : List PollStep) (hit : PollStep)
    (code : Nat) (result : CommandResult)
    (hpre : ∀ s ∈ pre, s.now ≤ timeoutTime ∧ s.wait = WaitPoll.running)
    (hnow : hit.now ≤ timeoutTime) (hwait : hit.wait = WaitPoll.reaped (WaitStatus.exited code)) :
    ∃ exit, pollLoop timeoutTime (pre ++ hit :: post) result = some exit
      ∧ exit.result.exitCode = code ∧ exit.result.timedOut = result.timedOut
      ∧ exit.processDone = true ∧ exit.killed = false := by
  induction pre generalizing result with
  | nil =>
    simp only [List.nil_append, pollLoop, if_neg (not_lt.mpr hnow), hwait]
    exact ⟨_, rfl, rfl, rfl, rfl, rfl⟩
  | cons s rest ih =>
    obtain ⟨hs1, hs2⟩ := hpre s (List.mem_cons_self _ _)
    have hrest : ∀ t ∈ rest, t.now ≤ timeoutTime ∧ t.wait = WaitPoll.running :=
      fun t ht => hpre t (List.mem_cons_of_mem _ ht)
    simp only [List.cons_append, pollLoop, if_neg (not_lt.mpr hs1), hs2]
    have := ih
      { result with output := result.output ++ s.out, error := result.error ++ s.err } hrest
    exact this

/-- What the poll loop does achieve: when the pipes and the fork succeed and an
iteration that starts no later than the deadline finds the child exited with
status `code`, all earlier iterations having started no later than the deadline
with the child running, the engine returns `exitCode = code`,
`timedOut = false` and, the clock being monotone, `executionTime ≥ 0`. -/
theorem executeSyncUnix_exit_observed (core : CoreImpl) (env : UnixEnv) (openFds : List Nat)
    (command : Str) (shellType : ShellType) (timeoutMs : Int)
    (pre post : List PollStep) (hit : PollStep) (code : Nat) (p1 p2 : Nat × Nat) (pid : Nat)
    (h1 : env.stdoutPipe = some p1) (h2 : env.stderrPipe = some p2) (h3 : env.pid = some pid)
    (hpolls : env.polls = pre ++ hit :: post)
    (hpre : ∀ s ∈ pre, s.now ≤ env.startTime + timeoutMs * 1000000 ∧ s.wait = WaitPoll.running)
    (hnow : hit.now ≤ env.startTime + timeoutMs * 1000000)
    (hwait : hit.wait = WaitPoll.reaped (WaitStatus.exited code))
    (hclock : env.startTime ≤ env.endTime) :
    ∃ ret, executeSyncUnix core env openFds command shellType timeoutMs = some ret
      ∧ ret.result.exitCode = code ∧ ret.result.timedOut = false
      ∧ 0 ≤ ret.result.executionTime ∧ ret.killed = false ∧ ret.child = ChildFate.reaped := by
  obtain ⟨exit, hl, hc, ht, hd, hk⟩ :=
    pollLoop_exit_observed (env.startTime + timeoutMs * 1000000) pre post hit code {} hpre hnow
      hwait
  unfold executeSyncUnix
  simp only [h1, h2, h3, hpolls, hl]
  refine ⟨_, rfl, hc, ht, ?_, hk, ?_⟩
  · exact Int.tdiv_nonneg (by omega) (by decide)
  · simp [hd]
/-- C15, evaluated on the code: the first `pipe` call succeeds with the
descriptors 3 and 4 and the second one fails; the engine returns with exit code
-1 and the descriptors 3 and 4 still open. -/
theorem executeSyncUnix_second_pipe_failure_leaks :
    executeSyncUnix {}
        { startTime := 0, stdoutPipe := some (3, 4), stderrPipe := none,
          pipeError := "Too many open files".toList, pid := none, forkError := [],
          polls := [], finalOut := [], finalErr := [], finalWait := false, endTime := 0 }
        [0, 1, 2] "ls".toList ShellType.Sh 1000
      = some { result := { exitCode := -1, output := [],
                           error := "Failed to create pipe: Too many open files".toList,
                           executionTime := 0, timedOut := false },
               openFds := [0, 1, 2, 3, 4], spawned := none, child := ChildFate.notForked,
               killed := false } := by
  decide

/-- What the engine does release: on every path other than the failure of the
second `pipe` call, the descriptors open at return are those open at entry (the
new descriptors being fresh), and the child, when one was forked, is reaped
unless the final blocking `waitpid` fails. -/
theorem executeSyncUnix_releases (core : CoreImpl) (env : UnixEnv) (openFds : List Nat)
    (command : Str) (shellType : ShellType) (timeoutMs : Int) (ret : EngineReturn)
    (h : executeSyncUnix core env openFds command shellType timeoutMs = some ret)
    (hpath : env.stdoutPipe = none ∨ env.stderrPipe ≠ none)
    (hfresh1 : ∀ p, env.stdoutPipe = some p → p.1 ∉ openFds ∧ p.2 ∉ openFds)
    (hfresh2 : ∀ p, env.stderrPipe = some p → p.1 ∉ openFds ∧ p.2 ∉ openFds) :
    (∀ fd, fd ∈ ret.openFds ↔ fd ∈ openFds)
      ∧ (env.finalWait = true → ret.child ≠ ChildFate.unreaped) := by
  unfold executeSyncUnix at h
  cases h1 : env.stdoutPipe with
  | none =>
    simp only [h1] at h
    cases h
    simp
  | some p1 =>
    obtain ⟨a, b⟩ := p1
    obtain ⟨ha, hb⟩ := hfresh1 _ h1
    cases h2 : env.stderrPipe with
    | none =>
      rcases hpath with e | e
      · rw [h1] at e
        cases e
      · exact absurd h2 e
    | some p2 =>
      obtain ⟨c, d⟩ := p2
      obtain ⟨hc, hd⟩ := hfresh2 _ h2
      have key : ∀ fd, (fd ∈ openFds ∨ fd = a ∨ fd = b ∨ fd = c ∨ fd = d)
          ∧ fd ≠ a ∧ fd ≠ b ∧ fd ≠ c ∧ fd ≠ d ↔ fd ∈ openFds := by
        intro fd
        constructor
        · rintro ⟨h0 | h0 | h0 | h0 | h0, n1, n2, n3, n4⟩
          · exact h0
          · exact absurd h0 n1
          · exact absurd h0 n2
          · exact absurd h0 n3
          · exact absurd h0 n4
        · intro h0
          refine ⟨Or.inl h0, ?_, ?_, ?_, ?_⟩ <;> rintro rfl <;> contradiction
      cases h3 : env.pid with
      | none =>
        simp only [h1, h2, h3] at h
        cases h
        refine ⟨fun fd => ?_, by simp⟩
        rw [← key fd]
        simp only [closeFd, List.mem_filter, List.mem_append, List.mem_cons, List.mem_singleton,
          List.not_mem_nil, or_false, decide_eq_true_eq]
        tauto
      | some pid =>
        simp only [h1, h2, h3] at h
        cases hl : pollLoop (env.startTime + timeoutMs * 1000000) env.polls {} with
        | none => simp [hl] at h
        | some exit =>
          simp only [hl] at h
          cases h
          refine ⟨fun fd => ?_, ?_⟩
          · rw [← key fd]
            simp only [closeFd, List.mem_filter, List.mem_append, List.mem_cons,
              List.mem_singleton, List.not_mem_nil, or_false, decide_eq_true_eq]
            tauto
          · intro hw
            cases hp : exit.processDone <;> simp [hp, hw]

/-- C16, evaluated on the code: thread 0 enters `getAsyncResult(1)` on a
`Running` record and is suspended in `cv.wait` still owning `m_asyncMutex`.
From then on `terminateAsync(1)` (thread 1) and `getAsyncStatus(1)` (thread 2)
cannot take their first step; they are still blocked after the worker has
finished, until thread 0 has returned. The waiting call is woken by the worker
and returns the worker's result; `terminateAsync` never gets to wake it. -/
theorem terminateAsync_blocked_by_waiting_getAsyncResult :
    ((waiterSystem { exitCode := 0, output := "x".toList }).run [0, 0, 0]).map
        (fun s => (s.threads.map (fun t => t.pc), s.shared.m_asyncMutex,
          [s.poll 0, s.poll 1, s.poll 2]))
      = some ([3, 0, 0, 0], some 0, [Step.blocked, Step.blocked, Step.blocked])
    ∧ ((waiterSystem { exitCode := 0, output := "x".toList }).run [0, 0, 0, 3, 3]).map
        (fun s => (s.threads.map (fun t => t.pc), s.shared.m_asyncMutex, [s.poll 1, s.poll 2]))
      = some ([3, 0, 0, 2], some 0, [Step.blocked, Step.blocked])
    ∧ ((waiterSystem { exitCode := 0, output := "x".toList }).run [0, 0, 0, 3, 3, 0, 0]).map
        (fun s => s.threads.map (fun t => t.returned))
      = some [some (ReturnValue.result true { exitCode := 0, output := "x".toList }), none, none,
              some ReturnValue.unit] := by
  decide

/-- C18, evaluated on the code: the destructor of an instance with one `Running`
record locks `m_asyncMutex`, sets the record's `cancelled` flag and calls
`terminateAsync`, whose first statement locks `m_asyncMutex` again on the same
thread. At that point the record is still `Running` and the registry is not
empty. -/
theorem destructor_relocks_registry_mutex :
    (destructorSystem.run [0, 0]).map
        (fun s => (s.threads.map (fun t => t.pc), s.shared.m_asyncMutex))
      = some ([2], some 0)
    ∧ (destructorSystem.run [0, 0]).map (fun s => s.poll 0) = some Step.relock
    ∧ (destructorSystem.run [0, 0]).map
        (fun s => s.shared.core.m_asyncCommands.map (fun e => (e.1, e.2.state, e.2.cancelled)))
      = some [(1, AsyncState.Running, true)]
    ∧ destructorSystem.run [0, 0, 0] = none := by
  decide

theorem stepThread_lock (tid : Nat) (t : Thread) (s : Shared) (t' : Thread) (s' : Shared)
    (h : stepThread tid t s = Step.next t' s')
    (hinv : holdsRegistry t = true → s.m_asyncMutex = some tid)
    (hpc : ¬ (t.call = Call.destroy ∧ t.pc = 3)) :
    (holdsRegistry t' = true → s'.m_asyncMutex = some tid)
      ∧ ¬ (t'.call = Call.destroy ∧ t'.pc = 3)
      ∧ (s'.m_asyncMutex = s.m_asyncMutex ∨ s.m_asyncMutex = none ∨ holdsRegistry t = true) := by
  obtain ⟨call, pc, idx, returned⟩ := t
  cases call <;> rcases pc with _ | _ | _ | _ | _ | pc <;>
    simp only [stepThread, lockRegistry, lockRecord, unlockRecord, holdsRegistry] at h hinv hpc ⊢
  all_goals (repeat' split at h)
  all_goals (try (simp at h)) 
  all_goals (try (obtain ⟨h1, h2⟩ := h; subst h1; subst h2))
  all_goals (try simp_all)

theorem lockInvariant_step (sys next : System) (tid : Nat) (h : sys.step tid = some next)
    (hinv : lockInvariant sys) : lockInvariant next := by
  unfold System.step System.poll at h
  cases hg : sys.threads.get? tid with
  | none =>
    have hg2 := hg
    rw [List.get?_eq_getElem?] at hg2
    simp [hg2] at h
  | some t =>
    simp only [hg] at h
    cases hs : stepThread tid t sys.shared with
    | blocked => simp [hs] at h
    | relock => simp [hs] at h
    | done => simp [hs] at h
    | next t' s' =>
      simp only [hs, Option.some.injEq] at h
      subst h
      obtain ⟨hown, hpc⟩ := hinv tid t hg
      obtain ⟨k1, k2, k3⟩ := stepThread_lock tid t sys.shared t' s' hs hown hpc
      intro i ti hi
      simp only at hi ⊢
      by_cases hij : i = tid
      · subst hij
        have hlt : i < sys.threads.length := by
          rcases List.get?_eq_some.mp hg with ⟨hl, _⟩
          exact hl
        have e : ti = t' := by
          rw [List.get?_eq_getElem?, List.getElem?_set_self hlt] at hi
          exact (Option.some.inj hi).symm
        subst e
        exact ⟨k1, k2⟩
      · have hi2 : sys.threads.get? i = some ti := by
          rw [List.get?_eq_getElem?] at hi ⊢
          rwa [List.getElem?_set_ne (fun e => hij e.symm)] at hi
        obtain ⟨howni, hpci⟩ := hinv i ti hi2
        refine ⟨fun hh => ?_, hpci⟩
        have hmi := howni hh
        rcases k3 with e | e | e
        · rw [e]
          exact hmi
        · rw [e] at hmi
          cases hmi
        · have := hown e
          rw [hmi] at this
          exact absurd (Option.some.inj this) hij

theorem lockInvariant_run (schedule : List Nat) (sys final : System)
    (h : sys.run schedule = some final) (hinv : lockInvariant sys) : lockInvariant final := by
  induction schedule generalizing sys with
  | nil =>
    simp only [System.run, Option.some.injEq] at h
    subst h
    exact hinv
  | cons tid rest ih =>
    unfold System.run at h
    cases hs : sys.step tid with
    | none => simp [hs] at h
    | some next =>
      simp only [hs] at h
      exact ih next h (lockInvariant_step sys next tid hs hinv)

theorem lockInvariant_initial (sys : System) (h : ∀ t ∈ sys.threads, t.pc = 0) :
    lockInvariant sys := by
  intro tid t ht
  have hmem : t ∈ sys.threads := List.get?_mem ht
  have hpc := h t hmem
  obtain ⟨call, pc, idx, returned⟩ := t
  simp only at hpc
  subst hpc
  cases call <;> simp [holdsRegistry]

/-- In every state reached, by any schedule, from threads that are all at the
start of their calls: while a thread is inside the `cv.wait` of
`getAsyncResult`, any other thread at the first statement of `terminateAsync`
or `getAsyncStatus` is blocked. -/
theorem blocked_while_getAsyncResult_waits (sys final : System) (schedule : List Nat)
    (hinit : ∀ t ∈ sys.threads, t.pc = 0) (hrun : sys.run schedule = some final)
    (a b : Nat) (ta tb : Thread) (asyncId other : Int) (out : CommandResult)
    (ha : final.threads.get? a = some ta) (hb : final.threads.get? b = some tb)
    (hca : ta.call = Call.getAsyncResult asyncId out) (hpa : ta.pc = 3)
    (hcb : tb.call = Call.terminateAsync other ∨ tb.call = Call.getAsyncStatus other)
    (hpb : tb.pc = 0) :
    final.poll b = Step.blocked := by
  have hinv := lockInvariant_run schedule sys final hrun (lockInvariant_initial sys hinit)
  have hown : final.shared.m_asyncMutex = some a := by
    apply (hinv a ta ha).1
    obtain ⟨call, pc, idx, returned⟩ := ta
    simp only at hca hpa
    subst hca hpa
    rfl
  have hab : a ≠ b := by
    intro e
    subst e
    rw [ha] at hb
    have := Option.some.inj hb
    subst this
    rw [hpa] at hpb
    cases hpb
  unfold System.poll
  rw [hb]
  obtain ⟨call, pc, idx, returned⟩ := tb
  simp only at hcb hpb
  subst hpb
  rcases hcb with e | e <;> subst e <;> simp [stepThread, lockRegistry, hown, hab]

/-- In every state reached, by any schedule, from threads that are all at the
start of their calls: a destructor that has come to the call of
`terminateAsync` inside its loop locks `m_asyncMutex` while owning it. -/
theorem destructor_relocks (sys final : System) (schedule : List Nat)
    (hinit : ∀ t ∈ sys.threads, t.pc = 0) (hrun : sys.run schedule = some final)
    (d : Nat) (td : Thread) (hd : final.threads.get? d = some td)
    (hcd : td.call = Call.destroy) (hpd : td.pc = 2) :
    final.poll d = Step.relock := by
  have hinv := lockInvariant_run schedule sys final hrun (lockInvariant_initial sys hinit)
  have hown : final.shared.m_asyncMutex = some d := by
    apply (hinv d td hd).1
    obtain ⟨call, pc, idx, returned⟩ := td
    simp only at hcd hpd
    subst hcd hpd
    rfl
  unfold System.poll
  rw [hd]
  obtain ⟨call, pc, idx, returned⟩ := td
  simp only at hcd hpd
  subst hcd hpd
  simp [stepThread, lockRegistry, hown]

end Zrun
